import Mathlib

/-!
Verification of the DexAggregator real-time quoting engine.

The development shallowly embeds the core of the quoting engine:

* the trade simulator (`TradeSimulator.simulatePath` / `getAmountOut`),
* the routing engine (`RoutingEngine.findRoutes`),
* the swap controller (`SwapController.getQuote` / `findOptimalSplit`),
* the quote orchestration pipeline (`ControllerService.getQuotes`), and
* the batched on-chain reader (`EthersAdapter.getBatchPoolData`).

JavaScript `bigint` values appearing here are on-chain unsigned quantities
(uint128 liquidity, uint160 sqrtPriceX96, parts-per-million fees, token
amounts), so they are modelled as `Nat`; `bigint` division truncates, which
on non-negative operands coincides with `Nat` floor division.  A JavaScript
`bigint` division by zero throws a RangeError; the embedding makes that an
explicit fault value instead of identifying it with a result.

The `SharedStateCache`, `CacheService`, `DispatcherService` and
`RequestBatcher` collaborators are not part of the sources (only their
callers are); they are modelled from the specification and say so in their
doc comments.
-/

namespace DexAgg

/-- Live pool state as stored in the shared state store.  Fields follow the
source `PoolState` interface: `address`, `liquidity`, `sqrtPriceX96`,
`token0`, `token1` (token addresses as strings) and an optional `fee`.
A missing fee and a zero fee are both falsy in the source (`poolState.fee ||
3000`), so the model folds them into `fee = 0`. -/
structure PoolState where
  address : String
  token0 : String
  token1 : String
  liquidity : Nat
  sqrtPriceX96 : Nat
  fee : Nat
deriving Repr, DecidableEq

/-- Modelled from the spec: the `SharedStateCache` state store is not among
the sources, only its callers are.  §4.1 specifies `poolsForToken(address) →
set of PoolState` with the symmetric adjacency invariant (a pool is
discoverable from both of its tokens).  The store is modelled as the list of
currently known pools; `poolsForToken` returns, in store order, every pool
that has the given token on either side, which satisfies the adjacency
invariant by construction.  Iteration order of the underlying map is
unspecified in the source (§9); the model fixes it to store order. -/
def getPoolsForToken (store : List PoolState) (a : String) : List PoolState :=
  store.filter (fun p => p.token0 == a || p.token1 == a)

/-- Modelled from the spec: `poolState(address) → PoolState | absent`
(§4.1), as lookup of the first pool with the given address. -/
def getPoolState (store : List PoolState) (addr : String) : Option PoolState :=
  store.find? (fun p => p.address == addr)

/-- `TradeSimulator.findPool`: the first pool in the token's adjacency list
that connects exactly the pair, returned by address. -/
def findPool (store : List PoolState) (tokenA tokenB : String) : Option String :=
  ((getPoolsForToken store tokenA).find? (fun pool =>
      (pool.token0 == tokenA && pool.token1 == tokenB) ||
      (pool.token0 == tokenB && pool.token1 == tokenA))).map (·.address)

/-- `TradeSimulator.getAmountOut`.  Result `none` models the JavaScript
RangeError thrown by `bigint` division by zero: in the `token1 → token0`
direction the source divides by `sqrtPriceX96 * sqrtPriceX96`, which throws
when `sqrtPriceX96 = 0` (the divisions by `1n << 192n` and by
`reserve + amountInAfterFee` with nonzero liquidity cannot throw).
`poolState.fee || 3000` is the source's fallback for a missing or zero fee.
The fee subtraction matches the source for `fee ≤ 1000000`, where
`feeAmount ≤ amountIn`. -/
def getAmountOut (poolState : PoolState) (tokenIn : String) (amountIn : Nat) :
    Option Nat :=
  let zeroForOne := tokenIn == poolState.token0
  let liquidity := poolState.liquidity
  let sqrtPriceX96 := poolState.sqrtPriceX96
  let fee := if poolState.fee == 0 then 3000 else poolState.fee
  let feeAmount := amountIn * fee / 1000000
  let amountInAfterFee := amountIn - feeAmount
  if liquidity == 0 then some 0
  else if zeroForOne then
    let reserve0 := liquidity
    let reserve1 := sqrtPriceX96 * sqrtPriceX96 * liquidity / 2 ^ 192
    some (reserve1 * amountInAfterFee / (reserve0 + amountInAfterFee))
  else if sqrtPriceX96 * sqrtPriceX96 == 0 then none
  else
    let reserve1 := liquidity
    let reserve0 := liquidity * 2 ^ 192 / (sqrtPriceX96 * sqrtPriceX96)
    some (reserve0 * amountInAfterFee / (reserve1 + amountInAfterFee))

/-- Outcome of `TradeSimulator.simulatePath`: `fault` is a propagated
division-by-zero RangeError, `missing` is the source's `null` (no pool for a
leg), `ok` is a computed amount. -/
inductive SimResult where
  | fault : SimResult
  | missing : SimResult
  | ok : Nat → SimResult
deriving Repr, DecidableEq

/-- `TradeSimulator.simulatePath`: fold each hop's output into the next
hop's input.  The source loop over `i < path.length - 1` becomes structural
recursion on the path; a path with fewer than two tokens performs no hop and
returns the input amount. -/
def simulatePath (store : List PoolState) (path : List String) (amountIn : Nat) :
    SimResult :=
  match path with
  | [] => .ok amountIn
  | [_] => .ok amountIn
  | tokenIn :: tokenOut :: rest =>
    match findPool store tokenIn tokenOut with
    | none => .missing
    | some poolAddress =>
      match getPoolState store poolAddress with
      | none => .missing
      | some poolState =>
        match getAmountOut poolState tokenIn amountIn with
        | none => .fault
        | some amountOut => simulatePath store (tokenOut :: rest) amountOut

/-- One queue entry of the breadth-first search in
`RoutingEngine.findRoutes`.  `visitedInPath` is the source's per-path
`Set<string>`, used only for membership tests. -/
structure BfsItem where
  token : String
  path : List String
  visitedInPath : List String
deriving Repr, DecidableEq

/-- One iteration of the `for (const pool of pools)` loop in
`RoutingEngine.findRoutes`: given the counterpart token of the current pool
and the routes/queue entries produced by the remaining iterations, `if
(!otherToken) continue` skips a falsy (empty) counterpart; a counterpart
equal to `tokenOut` records a completed route; a counterpart not yet visited
in this path is enqueued. -/
def expandStep (tokenOut : String) (item : BfsItem) (otherToken : String)
    (next : List (List String) × List BfsItem) :
    List (List String) × List BfsItem :=
  if otherToken == "" then next
  else if item.visitedInPath.contains otherToken then
    ((if otherToken == tokenOut then [item.path ++ [tokenOut]] else []) ++ next.1,
      next.2)
  else
    ((if otherToken == tokenOut then [item.path ++ [tokenOut]] else []) ++ next.1,
      ⟨otherToken, item.path ++ [otherToken],
        item.visitedInPath ++ [otherToken]⟩ :: next.2)

/-- The whole `for (const pool of pools)` loop for one dequeued item:
returns the completed routes found and the new queue entries, in pool
order.  `otherToken` is the source's `pool.token0 === token ? pool.token1 :
pool.token0`. -/
def expandItem (tokenOut : String) (item : BfsItem) :
    List PoolState → List (List String) × List BfsItem
  | [] => ([], [])
  | pool :: rest =>
    expandStep tokenOut item
      (if pool.token0 == item.token then pool.token1 else pool.token0)
      (expandItem tokenOut item rest)

/-- The `while (queue.length > 0)` loop of `RoutingEngine.findRoutes`,
FIFO: the head item is dequeued, items whose path already exceeds
`maxDepth` are skipped, new entries are appended at the back.  The source
loop terminates because queue entries carry strictly growing visited sets
over the finite token universe; the embedding makes that explicit with a
fuel argument bounding the number of dequeue steps, which keeps the
function structurally recursive and executable. -/
def findRoutesAux (store : List PoolState) (tokenOut : String) (maxDepth : Nat) :
    Nat → List BfsItem → List (List String)
  | 0, _ => []
  | _, [] => []
  | fuel + 1, item :: queue =>
    if item.path.length > maxDepth then
      findRoutesAux store tokenOut maxDepth fuel queue
    else
      let step := expandItem tokenOut item (getPoolsForToken store item.token)
      step.1 ++ findRoutesAux store tokenOut maxDepth fuel (queue ++ step.2)

/-- Fuel bound for `findRoutesAux`: every dequeued item is a path of length
at most `maxDepth + 2` in a tree whose branching is bounded by the number of
pools, so `(store.length + 1) ^ (maxDepth + 2)` dequeue steps suffice. -/
def bfsFuel (store : List PoolState) (maxDepth : Nat) : Nat :=
  (store.length + 1) ^ (maxDepth + 2)

/-- `RoutingEngine.findRoutes(tokenIn, tokenOut, maxDepth = 3)` with its
initial queue `[{token: tokenIn, path: [tokenIn], visitedInPath: {tokenIn}}]`. -/
def findRoutes (store : List PoolState) (tokenIn tokenOut : String)
    (maxDepth : Nat := 3) : List (List String) :=
  findRoutesAux store tokenOut maxDepth (bfsFuel store maxDepth)
    [⟨tokenIn, [tokenIn], [tokenIn]⟩]

/-- One entry of `TradeExecutionPlan.distribution`: `{route, amount, output}`.
The branch of `findOptimalSplit` for amounts below 100 units pushes an entry
without an `output` property, hence the `Option`. -/
structure DistEntry where
  route : List String
  amount : Nat
  output : Option Nat
deriving Repr, DecidableEq

/-- `TradeExecutionPlan` from `SwapController`. -/
structure TradeExecutionPlan where
  finalAmountOut : Nat
  distribution : List DistEntry
deriving Repr, DecidableEq

/-- The inner `for (let i = 0; i < routes.length; i++)` loop of
`findOptimalSplit`, selecting the route with the best marginal output for
the current increment.  The list argument is `routes` with indices
(`routes.enum`); the two accumulators are `bestRouteIdx` and
`bestMarginalOutput`, initially `0` and `0n`.  A `fault` from the simulator
propagates as `.error`.  The source computes the marginal as a `bigint`
subtraction that can be negative; a negative marginal never wins the strict
`>` comparison against the non-negative best, and the truncating `Nat`
subtraction used here yields `0`, which loses that comparison the same
way. -/
def findBest (store : List PoolState) (allocations : List Nat) (allocAmount : Nat) :
    List (Nat × List String) → Nat → Nat → Except Unit (Nat × Nat)
  | [], bestRouteIdx, bestMarginalOutput => .ok (bestRouteIdx, bestMarginalOutput)
  | (i, route) :: rest, bestRouteIdx, bestMarginalOutput =>
    let testAllocation := allocations.getD i 0 + allocAmount
    match simulatePath store route testAllocation with
    | .fault => .error ()
    | .missing => findBest store allocations allocAmount rest bestRouteIdx bestMarginalOutput
    | .ok outputForRoute =>
      if outputForRoute == 0 then
        findBest store allocations allocAmount rest bestRouteIdx bestMarginalOutput
      else
        let base : Except Unit Nat :=
          if allocations.getD i 0 > 0 then
            match simulatePath store route (allocations.getD i 0) with
            | .fault => .error ()
            | .missing => .ok 0
            | .ok b => .ok b
          else .ok 0
        match base with
        | .error e => .error e
        | .ok b =>
          let marginalOutput := outputForRoute - b
          if marginalOutput > bestMarginalOutput then
            findBest store allocations allocAmount rest i marginalOutput
          else
            findBest store allocations allocAmount rest bestRouteIdx bestMarginalOutput

/-- The `while (remainingAmount > 0n)` loop of `findOptimalSplit`.  Each
iteration allocates `min(remaining, incrementSize)` to the best marginal
route.  The source loop terminates because `incrementSize ≥ 1` on this path
and so every iteration allocates at least one unit; the fuel argument (the
loop is entered with `fuel = amountIn`, an upper bound on the number of
iterations) keeps the recursion structural. -/
def greedyLoop (store : List PoolState) (routes : List (List String))
    (incrementSize : Nat) : Nat → Nat → List Nat → Except Unit (List Nat)
  | _, 0, allocations => .ok allocations
  | 0, _ + 1, allocations => .ok allocations
  | fuel + 1, remaining + 1, allocations =>
    let allocAmount := if remaining + 1 < incrementSize then remaining + 1 else incrementSize
    match findBest store allocations allocAmount routes.enum 0 0 with
    | .error e => .error e
    | .ok (bestRouteIdx, _) =>
      greedyLoop store routes incrementSize fuel (remaining + 1 - allocAmount)
        (allocations.set bestRouteIdx (allocations.getD bestRouteIdx 0 + allocAmount))

/-- The final loop of `findOptimalSplit`: for each route with a positive
allocation, simulate the realized output; entries whose output is falsy
(`null` or `0n`) are skipped.  Returns the accumulated `totalAmountOut` and
the distribution in route order. -/
def buildDistribution (store : List PoolState) (allocations : List Nat) :
    List (Nat × List String) → Except Unit (Nat × List DistEntry)
  | [] => .ok (0, [])
  | (i, route) :: rest =>
    if allocations.getD i 0 > 0 then
      match simulatePath store route (allocations.getD i 0) with
      | .fault => .error ()
      | .missing => buildDistribution store allocations rest
      | .ok output =>
        if output == 0 then buildDistribution store allocations rest
        else
          match buildDistribution store allocations rest with
          | .error e => .error e
          | .ok (total, dist) =>
            .ok (total + output, ⟨route, allocations.getD i 0, some output⟩ :: dist)
    else buildDistribution store allocations rest

/-- `SwapController.findOptimalSplit(routes, amountIn)`.  `.error ()` models
a propagated simulator RangeError, `.ok none` the source's `null`.  The
small-amount branch (`incrementSize === 0n`) allocates everything to the
first route; `if (!amountOut) return null` rejects both a `null` and a `0n`
simulation result. -/
def findOptimalSplit (store : List PoolState) (routes : List (List String))
    (amountIn : Nat) : Except Unit (Option TradeExecutionPlan) :=
  if routes.isEmpty then .ok none
  else if amountIn / 100 == 0 then
    match simulatePath store (routes.getD 0 []) amountIn with
    | .fault => .error ()
    | .missing => .ok none
    | .ok amountOut =>
      if amountOut == 0 then .ok none
      else .ok (some ⟨amountOut, [⟨routes.getD 0 [], amountIn, none⟩]⟩)
  else
    match greedyLoop store routes (amountIn / 100) amountIn amountIn
        (routes.map fun _ => 0) with
    | .error e => .error e
    | .ok allocations =>
      match buildDistribution store allocations routes.enum with
      | .error e => .error e
      | .ok (totalAmountOut, distribution) =>
        if distribution.isEmpty then .ok none
        else .ok (some ⟨totalAmountOut, distribution⟩)

/-- Result shape of `SwapController.getQuote`: either `{route, amountOut}`
for a single candidate route or the multi-route plan. -/
inductive QuoteOut where
  | single : List String → Nat → QuoteOut
  | split : TradeExecutionPlan → QuoteOut
deriving Repr, DecidableEq

/-- `SwapController.getQuote(tokenIn, tokenOut, amountIn)`: find routes
(default `maxDepth = 3`), then either simulate the single route (`if
(!amountOut) return null` rejects `null` and `0n`) or split across several.
`.ok none` is the source's `null`, `.error ()` a propagated RangeError. -/
def getQuote (store : List PoolState) (tokenIn tokenOut : String) (amountIn : Nat) :
    Except Unit (Option QuoteOut) :=
  let routes := findRoutes store tokenIn tokenOut 3
  if routes.isEmpty then .ok none
  else if routes.length == 1 then
    match simulatePath store (routes.getD 0 []) amountIn with
    | .fault => .error ()
    | .missing => .ok none
    | .ok amountOut =>
      if amountOut == 0 then .ok none
      else .ok (some (.single (routes.getD 0 []) amountOut))
  else
    match findOptimalSplit store routes amountIn with
    | .error e => .error e
    | .ok none => .ok none
    | .ok (some plan) => .ok (some (.split plan))

/-! ### Arithmetic helper lemmas for the constant-product hop -/

theorem feeAmount_le_amount (a f : Nat) (hf : f ≤ 1000000) :
    a * f / 1000000 ≤ a := by
  calc a * f / 1000000 ≤ a * 1000000 / 1000000 :=
        Nat.div_le_div_right (Nat.mul_le_mul_left a hf)
    _ = a := Nat.mul_div_cancel a (by norm_num)

theorem afterFee_anti_fee (a f₁ f₂ : Nat) (h : f₁ ≤ f₂) :
    a - a * f₂ / 1000000 ≤ a - a * f₁ / 1000000 :=
  Nat.sub_le_sub_left (Nat.div_le_div_right (Nat.mul_le_mul_left a h)) a

theorem afterFee_mono_amount (f : Nat) (hf : f ≤ 1000000) {a b : Nat} (hab : a ≤ b) :
    a - a * f / 1000000 ≤ b - b * f / 1000000 := by
  have h1 : b * f ≤ a * f + (b - a) * 1000000 := by
    have : b * f = a * f + (b - a) * f := by
      rw [← Nat.add_mul, Nat.add_sub_cancel' hab]
    rw [this]
    exact Nat.add_le_add_left (Nat.mul_le_mul_left _ hf) _
  have h2 : b * f / 1000000 ≤ a * f / 1000000 + (b - a) := by
    calc b * f / 1000000 ≤ (a * f + (b - a) * 1000000) / 1000000 :=
          Nat.div_le_div_right h1
      _ = a * f / 1000000 + (b - a) := Nat.add_mul_div_right _ _ (by norm_num)
  have h3 : a * f / 1000000 ≤ a := feeAmount_le_amount a f hf
  omega

theorem cp_out_mono (R1 R0 : Nat) (hR0 : 0 < R0) {x y : Nat} (h : x ≤ y) :
    R1 * x / (R0 + x) ≤ R1 * y / (R0 + y) := by
  have hx : 0 < R0 + x := Nat.lt_of_lt_of_le hR0 (Nat.le_add_right _ _)
  have hy : 0 < R0 + y := Nat.lt_of_lt_of_le hR0 (Nat.le_add_right _ _)
  set q := R1 * x / (R0 + x) with hq
  have hq1 : q * (R0 + x) ≤ R1 * x := Nat.div_mul_le_self _ _
  have hqR1 : q ≤ R1 := by
    have : q * (R0 + x) ≤ R1 * (R0 + x) :=
      hq1.trans (Nat.mul_le_mul_left R1 (Nat.le_add_left _ _))
    exact Nat.le_of_mul_le_mul_right this hx
  rw [Nat.le_div_iff_mul_le hy]
  have hsplit : R0 + y = (R0 + x) + (y - x) := by omega
  calc q * (R0 + y) = q * (R0 + x) + q * (y - x) := by rw [hsplit, Nat.mul_add]
    _ ≤ R1 * x + R1 * (y - x) :=
        Nat.add_le_add hq1 (Nat.mul_le_mul_right _ hqR1)
    _ = R1 * (x + (y - x)) := by rw [Nat.mul_add]
    _ = R1 * y := by rw [Nat.add_sub_cancel' h]

/-! ### Claim 1: single-hop closed form -/

/-- The closed-form constant-product value asserted by the specification for
one hop: `amountInAfterFee = amountIn - floor(amountIn·fee/10^6)`; trading
`token0 → token1` uses `reserveA = liquidity` and `reserveB =
floor(sqrtPriceX96²·liquidity / 2^192)`, the other direction the reciprocal
derivation; the result is `floor(reserveB·amountInAfterFee / (reserveA +
amountInAfterFee))`.  This definition follows the specification's words and
is compared against the source-derived `simulatePath`. -/
def specHopFormula (p : PoolState) (tokenIn : String) (amountIn : Nat) : Nat :=
  let amountInAfterFee := amountIn - amountIn * p.fee / 1000000
  if tokenIn = p.token0 then
    (p.sqrtPriceX96 * p.sqrtPriceX96 * p.liquidity / 2 ^ 192) * amountInAfterFee /
      (p.liquidity + amountInAfterFee)
  else
    (p.liquidity * 2 ^ 192 / (p.sqrtPriceX96 * p.sqrtPriceX96)) * amountInAfterFee /
      (p.liquidity + amountInAfterFee)

/-- A well-behaved hop (positive liquidity, positive price, fee in
`[1, 10^6]`) computes exactly the specification's closed form. -/
theorem getAmountOut_eq_spec (p : PoolState) (a : String) (amountIn : Nat)
    (hliq : 0 < p.liquidity) (hsqrt : 0 < p.sqrtPriceX96)
    (hfee1 : 1 ≤ p.fee) (hfee2 : p.fee ≤ 1000000) :
    getAmountOut p a amountIn = some (specHopFormula p a amountIn) := by
  have hfee0 : (p.fee == 0) = false := beq_eq_false_iff_ne.mpr (by omega)
  have hliq0 : (p.liquidity == 0) = false := beq_eq_false_iff_ne.mpr (by omega)
  have hss : (p.sqrtPriceX96 * p.sqrtPriceX96 == 0) = false :=
    beq_eq_false_iff_ne.mpr (Nat.pos_iff_ne_zero.mp (Nat.mul_pos hsqrt hsqrt))
  unfold getAmountOut specHopFormula
  by_cases hdir : a = p.token0
  · simp [hdir, hfee0, hliq0, hss]
  · simp [hdir, hfee0, hliq0, hss]

/-- C1 (amended): for a one-hop route whose connecting pool has positive
liquidity, positive `sqrtPriceX96` and a fee `f` with `1 ≤ f ≤ 10^6`,
`simulatePath` equals the specification's closed-form constant-product value
with integer floor arithmetic.  The bound `1 ≤ f` is forced by the source's
`fee || 3000` fallback (see the counterexample); `f ≤ 10^6` is the
parts-per-million fee domain. -/
theorem claim1_single_hop_closed_form (store : List PoolState) (a b : String)
    (amountIn : Nat) (addr : String) (p : PoolState)
    (hfind : findPool store a b = some addr)
    (hstate : getPoolState store addr = some p)
    (hliq : 0 < p.liquidity) (hsqrt : 0 < p.sqrtPriceX96)
    (hfee1 : 1 ≤ p.fee) (hfee2 : p.fee ≤ 1000000) :
    simulatePath store [a, b] amountIn = .ok (specHopFormula p a amountIn) := by
  simp [simulatePath, hfind, hstate,
    getAmountOut_eq_spec p a amountIn hliq hsqrt hfee1 hfee2]

/-- Concrete pool refuting C1 as stated: fee field `0`. -/
def cxPoolC1 : PoolState := ⟨"pAB", "A", "B", 1000000, 2 ^ 96, 0⟩

/-- C1 counterexample: with the connecting pool's fee `f = 0` (liquidity and
`sqrtPriceX96` positive), the source deducts the default `3000` ppm fee, so
`simulatePath` returns `996` while the claim's closed form with `f = 0`
gives `999`. -/
theorem claim1_cx :
    simulatePath [cxPoolC1] ["A", "B"] 1000 = .ok 996 ∧
    specHopFormula cxPoolC1 "A" 1000 = 999 ∧ (996 : Nat) ≠ 999 :=
  ⟨rfl, rfl, by decide⟩

/-- Concrete pool for the C1 witness: fee 500 ppm. -/
def wPoolC1 : PoolState := ⟨"wAB", "A", "B", 1000000, 2 ^ 96, 500⟩

/-- Witness for `claim1_single_hop_closed_form` at a concrete input. -/
theorem claim1_witness :
    simulatePath [wPoolC1] ["A", "B"] 1000 = .ok (specHopFormula wPoolC1 "A" 1000) :=
  claim1_single_hop_closed_form [wPoolC1] "A" "B" 1000 "wAB" wPoolC1 rfl rfl
    (by decide) (by decide) (by decide) (by decide)

/-! ### Claim 3: zero liquidity never faults -/

/-- A hop only faults when its pool has positive liquidity and zero
`sqrtPriceX96`. -/
theorem getAmountOut_ne_none (p : PoolState) (t : String) (a : Nat)
    (h : p.liquidity = 0 ∨ p.sqrtPriceX96 ≠ 0) : getAmountOut p t a ≠ none := by
  unfold getAmountOut
  rcases h with h0 | hs
  · simp [h0]
  · have hss : (p.sqrtPriceX96 * p.sqrtPriceX96 == 0) = false :=
      beq_eq_false_iff_ne.mpr (Nat.pos_iff_ne_zero.mp
        (Nat.mul_pos (Nat.pos_of_ne_zero hs) (Nat.pos_of_ne_zero hs)))
    by_cases hl : p.liquidity == 0
    · simp [hl]
    · by_cases hd : t == p.token0
      · simp [hl, hd]
      · simp [hl, hd, hss]

/-- C3 (amended): a hop through a zero-liquidity pool yields output `0` and
raises no division fault itself; and `simulatePath` never faults on a store
in which every pool has zero liquidity or nonzero `sqrtPriceX96`.  (A pool
with positive liquidity and zero `sqrtPriceX96`, traded `token1 → token0`,
still faults even when another hop of the route has zero liquidity — see the
counterexample.) -/
theorem claim3_zero_liquidity_no_fault :
    (∀ (p : PoolState) (tokenIn : String) (amountIn : Nat),
      p.liquidity = 0 → getAmountOut p tokenIn amountIn = some 0) ∧
    (∀ (store : List PoolState) (path : List String) (amountIn : Nat),
      (∀ p ∈ store, p.liquidity = 0 ∨ p.sqrtPriceX96 ≠ 0) →
      simulatePath store path amountIn ≠ .fault) := by
  constructor
  · intro p tokenIn amountIn hliq
    simp [getAmountOut, hliq]
  · intro store path
    induction path with
    | nil => intro amountIn _; simp [simulatePath]
    | cons t rest ih =>
      intro amountIn hstore
      cases rest with
      | nil => simp [simulatePath]
      | cons u rest' =>
        simp only [simulatePath]
        cases hfp : findPool store t u with
        | none => simp
        | some addr =>
          simp only [hfp]
          cases hps : getPoolState store addr with
          | none => simp [hps]
          | some pool =>
            simp only [hps]
            have hmem : pool ∈ store := List.mem_of_find?_eq_some hps
            cases hout : getAmountOut pool t amountIn with
            | none =>
              exact absurd hout (getAmountOut_ne_none pool t amountIn (hstore pool hmem))
            | some amountOut =>
              simp only [hout]
              exact ih amountOut hstore

/-- Pools for the C3 counterexample: the `A–B` pool has zero liquidity; the
`B–C` pool (stored as `token0 = C`, `token1 = B`) has positive liquidity and
zero `sqrtPriceX96`. -/
def cxPoolAB3 : PoolState := ⟨"zAB", "A", "B", 0, 2 ^ 96, 3000⟩

def cxPoolCB3 : PoolState := ⟨"zCB", "C", "B", 1, 0, 3000⟩

/-- C3 counterexample: on the route `A → B → C`, the first hop's pool has
liquidity `0` (the claim's hypothesis), yet the simulation faults — the
second hop divides by `sqrtPriceX96² = 0` — so a division fault does occur
and `simulatePath` is not fault-free on such inputs. -/
theorem claim3_cx :
    findPool [cxPoolAB3, cxPoolCB3] "A" "B" = some "zAB" ∧
    getPoolState [cxPoolAB3, cxPoolCB3] "zAB" = some cxPoolAB3 ∧
    cxPoolAB3.liquidity = 0 ∧
    simulatePath [cxPoolAB3, cxPoolCB3] ["A", "B", "C"] 5 = .fault := by
  refine ⟨rfl, rfl, rfl, rfl⟩

/-- Witness for `claim3_zero_liquidity_no_fault` at concrete inputs. -/
theorem claim3_witness :
    getAmountOut cxPoolAB3 "A" 5 = some 0 ∧
    simulatePath [cxPoolAB3] ["A", "B"] 5 ≠ .fault :=
  ⟨claim3_zero_liquidity_no_fault.1 cxPoolAB3 "A" 5 rfl,
   claim3_zero_liquidity_no_fault.2 [cxPoolAB3] ["A", "B"] 5
     (by intro p hp; simp at hp; subst hp; left; rfl)⟩

/-! ### Claim 4: routes are simple paths -/

/-- Invariant of the BFS queue: each entry's path has no duplicates and is
covered by its visited set. -/
def GoodItem (it : BfsItem) : Prop :=
  it.path.Nodup ∧ ∀ x ∈ it.path, x ∈ it.visitedInPath

theorem expandStep_spec (tokenOut : String) (item : BfsItem) (ot : String)
    (next : List (List String) × List BfsItem) (hgood : GoodItem item)
    (ihr : ∀ r ∈ next.1, ∃ p, r = p ++ [tokenOut] ∧ p.Nodup)
    (ihi : ∀ it ∈ next.2, GoodItem it) :
    (∀ r ∈ (expandStep tokenOut item ot next).1,
      ∃ p, r = p ++ [tokenOut] ∧ p.Nodup) ∧
    (∀ it ∈ (expandStep tokenOut item ot next).2, GoodItem it) := by
  have hfound : ∀ r ∈ (if ot == tokenOut then [item.path ++ [tokenOut]] else []),
      ∃ p, r = p ++ [tokenOut] ∧ p.Nodup := by
    split
    · intro r hr
      exact ⟨item.path, by simpa using hr, hgood.1⟩
    · intro r hr
      simp at hr
  unfold expandStep
  split
  · exact ⟨ihr, ihi⟩
  · split
    · next h1 h2 =>
      refine ⟨?_, ihi⟩
      intro r hr
      rcases List.mem_append.mp hr with h | h
      · exact hfound r h
      · exact ihr r h
    · next h1 h2 =>
      constructor
      · intro r hr
        rcases List.mem_append.mp hr with h | h
        · exact hfound r h
        · exact ihr r h
      · intro it hit
        rcases List.mem_cons.mp hit with h | h
        · subst h
          have hnotvis : ot ∉ item.visitedInPath := by simpa using h2
          have hnotpath : ot ∉ item.path :=
            fun hmem => hnotvis (hgood.2 _ hmem)
          constructor
          · simp [List.nodup_append, hgood.1, hnotpath]
          · intro x hx
            rcases List.mem_append.mp hx with h' | h'
            · exact List.mem_append.mpr (Or.inl (hgood.2 x h'))
            · exact List.mem_append.mpr (Or.inr h')
        · exact ihi it h

theorem expandItem_spec (tokenOut : String) (item : BfsItem) (hgood : GoodItem item)
    (pools : List PoolState) :
    (∀ r ∈ (expandItem tokenOut item pools).1, ∃ p, r = p ++ [tokenOut] ∧ p.Nodup) ∧
    (∀ it ∈ (expandItem tokenOut item pools).2, GoodItem it) := by
  induction pools with
  | nil => simp [expandItem]
  | cons pool rest ihp =>
    obtain ⟨ihr, ihi⟩ := ihp
    simp only [expandItem]
    exact expandStep_spec tokenOut item _ _ hgood ihr ihi

theorem findRoutesAux_shape (store : List PoolState) (tokenOut : String)
    (maxDepth : Nat) :
    ∀ (fuel : Nat) (queue : List BfsItem), (∀ it ∈ queue, GoodItem it) →
      ∀ r ∈ findRoutesAux store tokenOut maxDepth fuel queue,
        ∃ p, r = p ++ [tokenOut] ∧ p.Nodup := by
  intro fuel
  induction fuel with
  | zero => intro queue hq r hr; simp [findRoutesAux] at hr
  | succ fuel ih =>
    intro queue hq r hr
    cases queue with
    | nil => simp [findRoutesAux] at hr
    | cons item rest =>
      simp only [findRoutesAux] at hr
      by_cases hlen : item.path.length > maxDepth
      · rw [if_pos hlen] at hr
        exact ih rest (fun it hit => hq it (List.mem_cons_of_mem _ hit)) r hr
      · rw [if_neg hlen] at hr
        have hgood : GoodItem item := hq item (List.mem_cons_self _ _)
        have hspec := expandItem_spec tokenOut item hgood (getPoolsForToken store item.token)
        rcases List.mem_append.mp hr with h | h
        · exact hspec.1 r h
        · refine ih _ ?_ r h
          intro it hit
          rcases List.mem_append.mp hit with h' | h'
          · exact hq it (List.mem_cons_of_mem _ h')
          · exact hspec.2 it h'

/-- C4 (amended): every route returned by `findRoutes` is a duplicate-free
path followed by the final `tokenOut`; no token other than `tokenOut` occurs
twice.  `tokenOut` itself can additionally occur once inside the path — the
source records a completed route whenever a counterpart equals `tokenOut`
without consulting the visited set — so a returned route is not always a
simple path (see the counterexample). -/
theorem claim4_routes_shape (store : List PoolState) (tokenIn tokenOut : String)
    (maxDepth : Nat) (r : List String)
    (hr : r ∈ findRoutes store tokenIn tokenOut maxDepth) :
    ∃ p, r = p ++ [tokenOut] ∧ p.Nodup := by
  refine findRoutesAux_shape store tokenOut maxDepth _ _ ?_ r hr
  intro it hit
  have : it = ⟨tokenIn, [tokenIn], [tokenIn]⟩ := by simpa using hit
  subst this
  exact ⟨List.nodup_singleton _, by simp⟩

/-- Pools for the C4 counterexample: `A–O` and `O–B`. -/
def cxPoolAO : PoolState := ⟨"pAO", "A", "O", 5, 2 ^ 96, 3000⟩

def cxPoolOB : PoolState := ⟨"pOB", "O", "B", 5, 2 ^ 96, 3000⟩

/-- C4 counterexample: with pools `A–O` and `O–B`, the query
`findRoutes("A", "O", 3)` returns the route `A → O → B → O`, in which the
output token `O` occurs twice, so a returned route can revisit a token. -/
theorem claim4_cx :
    ["A", "O", "B", "O"] ∈ findRoutes [cxPoolAO, cxPoolOB] "A" "O" 3 ∧
    ¬ (["A", "O", "B", "O"] : List String).Nodup := by
  constructor
  · show _ ∈ findRoutes [cxPoolAO, cxPoolOB] "A" "O" 3
    have : findRoutes [cxPoolAO, cxPoolOB] "A" "O" 3 =
        [["A", "O"], ["A", "O", "B", "O"]] := by rfl
    rw [this]
    simp
  · decide

/-- Witness for `claim4_routes_shape` at a concrete input. -/
theorem claim4_witness : ∃ p, ["A", "O"] = p ++ ["O"] ∧ p.Nodup :=
  claim4_routes_shape [cxPoolAO, cxPoolOB] "A" "O" 3 ["A", "O"]
    (by rw [(by rfl : findRoutes [cxPoolAO, cxPoolOB] "A" "O" 3 =
        [["A", "O"], ["A", "O", "B", "O"]])]; simp)

/-! ### Claim 2: distribution amounts versus the requested total -/

theorem sum_set_getD (l : List Nat) (i a : Nat) :
    (l.set i (l.getD i 0 + a)).sum ≤ l.sum + a := by
  induction l generalizing i with
  | nil => simp
  | cons x xs ih =>
    cases i with
    | zero => simp [List.getD]; omega
    | succ i =>
      simp only [List.set, List.getD_cons_succ, List.sum_cons]
      have := ih i
      omega

theorem greedyLoop_sum (store : List PoolState) (routes : List (List String))
    (inc : Nat) :
    ∀ (fuel remaining : Nat) (allocs res : List Nat),
      greedyLoop store routes inc fuel remaining allocs = .ok res →
      res.sum ≤ allocs.sum + remaining := by
  intro fuel
  induction fuel with
  | zero =>
    intro remaining allocs res h
    cases remaining with
    | zero =>
      simp only [greedyLoop] at h
      cases h
      omega
    | succ r =>
      simp only [greedyLoop] at h
      cases h
      omega
  | succ fuel ih =>
    intro remaining allocs res h
    cases remaining with
    | zero =>
      simp only [greedyLoop] at h
      cases h
      omega
    | succ r =>
      simp only [greedyLoop] at h
      split at h
      · exact absurd h (by simp)
      · next bestIdx _ _ =>
        have hrec := ih _ _ _ h
        have hset := sum_set_getD allocs bestIdx
          (if r + 1 < inc then r + 1 else inc)
        by_cases hlt : r + 1 < inc
        · rw [if_pos hlt] at hrec hset
          omega
        · rw [if_neg hlt] at hrec hset
          omega

theorem drop_sum_getD (l : List Nat) (n : Nat) :
    (l.drop n).sum = l.getD n 0 + (l.drop (n + 1)).sum := by
  induction l generalizing n with
  | nil => simp
  | cons x xs ih =>
    cases n with
    | zero => simp
    | succ n => simpa using ih n

theorem buildDistribution_sum (store : List PoolState) (allocs : List Nat) :
    ∀ (rs : List (List String)) (n t : Nat) (d : List DistEntry),
      buildDistribution store allocs (List.enumFrom n rs) = .ok (t, d) →
      (d.map (·.amount)).sum ≤ (allocs.drop n).sum := by
  intro rs
  induction rs with
  | nil =>
    intro n t d h
    simp only [List.enumFrom, buildDistribution] at h
    cases h
    simp
  | cons r rs ih =>
    intro n t d h
    have hdrop := drop_sum_getD allocs n
    simp only [List.enumFrom, buildDistribution] at h
    split at h
    · split at h
      · exact absurd h (by simp)
      · have := ih (n + 1) t d h
        omega
      · split at h
        · have := ih (n + 1) t d h
          omega
        · split at h
          · exact absurd h (by simp)
          · next total dist hrest =>
            have hd := ih (n + 1) total dist hrest
            simp only [Except.ok.injEq, Prod.mk.injEq] at h
            obtain ⟨-, hdd⟩ := h
            subst hdd
            simp only [List.map_cons, List.sum_cons]
            omega
    · have := ih (n + 1) t d h
      omega

/-- C2 (amended): the greedy loop distributes exactly `totalAmountIn` over
the internal allocations, but the returned `distribution` silently drops any
route whose realized output simulates to `0` or fails, losing that route's
allocated amount.  Hence the sum of the `amount` values over the returned
`distribution` is at most `totalAmountIn`, with equality exactly when no
positively-allocated route is dropped — strict inequality is reachable (see
the counterexample). -/
theorem claim2_distribution_sum (store : List PoolState)
    (routes : List (List String)) (amountIn : Nat) (plan : TradeExecutionPlan)
    (h : findOptimalSplit store routes amountIn = .ok (some plan)) :
    (plan.distribution.map (·.amount)).sum ≤ amountIn := by
  unfold findOptimalSplit at h
  split at h
  · exact absurd h (by simp)
  · split at h
    · split at h
      · exact absurd h (by simp)
      · exact absurd h (by simp)
      · split at h
        · exact absurd h (by simp)
        · simp only [Except.ok.injEq, Option.some.injEq] at h
          subst h
          simp
    · split at h
      · exact absurd h (by simp)
      · next allocations hgreedy =>
        split at h
        · exact absurd h (by simp)
        · next total dist hbuild =>
          split at h
          · exact absurd h (by simp)
          · simp only [Except.ok.injEq, Option.some.injEq] at h
            subst h
            have h1 : (dist.map (·.amount)).sum ≤ allocations.sum := by
              have := buildDistribution_sum store allocations routes 0 total dist
                (by simpa [List.enum] using hbuild)
              simpa using this
            have h2 : allocations.sum ≤ amountIn := by
              have := greedyLoop_sum store routes (amountIn / 100) amountIn amountIn
                (routes.map fun _ => 0) allocations hgreedy
              simpa using this
            exact le_trans h1 (by omega)

/-- Store for the C2 counterexample: route `A→B` runs through a
zero-liquidity pool, route `A→C` through a small pool whose marginal output
reaches the integer floor after 90 units. -/
def cxStoreC2 : List PoolState :=
  [⟨"c2AB", "A", "B", 0, 2 ^ 96, 3000⟩, ⟨"c2AC", "A", "C", 10, 10 * 2 ^ 96, 3000⟩]

def cxRoutesC2 : List (List String) := [["A", "B"], ["A", "C"]]

def cxPlanC2 : TradeExecutionPlan := ⟨900, [⟨["A", "C"], 90, some 900⟩]⟩

/-- C2 counterexample: splitting `100` over the two candidate routes returns
a plan whose distribution amounts sum to `90`, not `100`: once route 1's
marginal output floors to zero, the remaining ten increments are assigned to
route 0, whose zero output drops its allocation from the distribution. -/
theorem claim2_cx :
    findOptimalSplit cxStoreC2 cxRoutesC2 100 = .ok (some cxPlanC2) ∧
    (cxPlanC2.distribution.map (·.amount)).sum = 90 ∧ (90 : Nat) ≠ 100 :=
  ⟨rfl, rfl, by decide⟩

/-- Witness for `claim2_distribution_sum` at a concrete input. -/
theorem claim2_witness : (cxPlanC2.distribution.map (·.amount)).sum ≤ 100 :=
  claim2_distribution_sum cxStoreC2 cxRoutesC2 100 cxPlanC2 rfl

/-! ### Claim 10: zero output is infeasibility, not a quote -/

theorem buildDistribution_pos (store : List PoolState) (allocs : List Nat) :
    ∀ (l : List (Nat × List String)) (t : Nat) (d : List DistEntry),
      buildDistribution store allocs l = .ok (t, d) →
      ∀ e ∈ d, ∃ n, simulatePath store e.route e.amount = .ok n ∧ 0 < n := by
  intro l
  induction l with
  | nil =>
    intro t d h
    simp only [buildDistribution] at h
    cases h
    simp
  | cons ir rest ih =>
    intro t d h
    obtain ⟨i, route⟩ := ir
    simp only [buildDistribution] at h
    split at h
    · split at h
      · exact absurd h (by simp)
      · exact ih t d h
      · next output hsim =>
        split at h
        · exact ih t d h
        · next hout0 =>
          split at h
          · exact absurd h (by simp)
          · next total dist hrest =>
            simp only [Except.ok.injEq, Prod.mk.injEq] at h
            obtain ⟨-, hdd⟩ := h
            subst hdd
            intro e he
            rcases List.mem_cons.mp he with he | he
            · subst he
              refine ⟨output, hsim, ?_⟩
              have : ¬output = 0 := by simpa using hout0
              omega
            · exact ih total dist hrest e he
    · exact ih t d h

/-- C10: a simulated output of exactly `0` is treated as infeasibility.
For a single candidate route whose simulation yields `0`, `getQuote` returns
`null` (the source's `if (!amountOut)` is true for the `bigint` `0n`); and
every entry of a returned multi-route distribution has a strictly positive
simulated output — routes realizing `0` are silently omitted. -/
theorem claim10_zero_output_infeasible :
    (∀ (store : List PoolState) (tokenIn tokenOut : String) (amountIn : Nat)
      (r : List String),
      findRoutes store tokenIn tokenOut 3 = [r] →
      simulatePath store r amountIn = .ok 0 →
      getQuote store tokenIn tokenOut amountIn = .ok none) ∧
    (∀ (store : List PoolState) (routes : List (List String)) (amountIn : Nat)
      (plan : TradeExecutionPlan),
      findOptimalSplit store routes amountIn = .ok (some plan) →
      ∀ e ∈ plan.distribution,
        ∃ n, simulatePath store e.route e.amount = .ok n ∧ 0 < n) := by
  constructor
  · intro store tokenIn tokenOut amountIn r hroutes hsim
    simp [getQuote, hroutes, hsim]
  · intro store routes amountIn plan h
    unfold findOptimalSplit at h
    split at h
    · exact absurd h (by simp)
    · split at h
      · split at h
        · exact absurd h (by simp)
        · exact absurd h (by simp)
        · next amountOut hsim =>
          split at h
          · exact absurd h (by simp)
          · next hout0 =>
            simp only [Except.ok.injEq, Option.some.injEq] at h
            subst h
            intro e he
            simp only [List.mem_singleton] at he
            subst he
            refine ⟨amountOut, hsim, ?_⟩
            have : ¬amountOut = 0 := by simpa using hout0
            omega
      · split at h
        · exact absurd h (by simp)
        · next allocations hgreedy =>
          split at h
          · exact absurd h (by simp)
          · next total dist hbuild =>
            split at h
            · exact absurd h (by simp)
            · simp only [Except.ok.injEq, Option.some.injEq] at h
              subst h
              exact buildDistribution_pos store allocations routes.enum total dist hbuild

/-- Store for the C10 witness, first part: a single zero-liquidity pool. -/
def cxStoreC10 : List PoolState := [⟨"xAB", "A", "B", 0, 2 ^ 96, 3000⟩]

/-- Store and plan for the C10 witness, second part: a healthy pool, split
of 50 units through the small-amount branch. -/
def wStoreC10 : List PoolState := [⟨"wAB", "A", "B", 1000000, 2 ^ 96, 3000⟩]

def wPlanC10 : TradeExecutionPlan := ⟨49, [⟨["A", "B"], 50, none⟩]⟩

/-- Witness for `claim10_zero_output_infeasible` at concrete inputs. -/
theorem claim10_witness :
    getQuote cxStoreC10 "A" "B" 500 = .ok none ∧
    (∀ e ∈ wPlanC10.distribution,
      ∃ n, simulatePath wStoreC10 e.route e.amount = .ok n ∧ 0 < n) :=
  ⟨claim10_zero_output_infeasible.1 cxStoreC10 "A" "B" 500 ["A", "B"] rfl rfl,
   claim10_zero_output_infeasible.2 wStoreC10 [["A", "B"]] 50 wPlanC10 rfl⟩

/-! ### Claim 5: output is non-increasing in the fee -/

/-- Two pool states identical except for the fee, with fees in the ppm
domain and the low fee nonzero: `1 ≤ fee₁ ≤ fee₂ ≤ 10^6`. -/
def FeeLE (p q : PoolState) : Prop :=
  p.address = q.address ∧ p.token0 = q.token0 ∧ p.token1 = q.token1 ∧
    p.liquidity = q.liquidity ∧ p.sqrtPriceX96 = q.sqrtPriceX96 ∧
    1 ≤ p.fee ∧ p.fee ≤ q.fee ∧ q.fee ≤ 1000000

theorem forall2_find? {α : Type} {R : α → α → Prop} {f g : α → Bool}
    (hfg : ∀ x y, R x y → f x = g y) :
    ∀ {l₁ l₂ : List α}, List.Forall₂ R l₁ l₂ →
      (l₁.find? f = none ∧ l₂.find? g = none) ∨
      (∃ x y, l₁.find? f = some x ∧ l₂.find? g = some y ∧ R x y) := by
  intro l₁ l₂ h
  induction h with
  | nil => left; simp
  | @cons x y l₁' l₂' hxy hrest ih =>
    cases hfx : f x with
    | true =>
      right
      have hgy : g y = true := (hfg x y hxy) ▸ hfx
      exact ⟨x, y, by rw [List.find?_cons_of_pos _ hfx],
        by rw [List.find?_cons_of_pos _ hgy], hxy⟩
    | false =>
      have hgy : g y = false := (hfg x y hxy) ▸ hfx
      rw [List.find?_cons_of_neg _ (by simp [hfx]),
        List.find?_cons_of_neg _ (by simp [hgy])]
      exact ih

/-- Evaluated form of `getAmountOut` for a pool with a nonzero fee and
nonzero liquidity. -/
theorem getAmountOut_eval (p : PoolState) (t : String) (a : Nat)
    (hf : 1 ≤ p.fee) (hl : p.liquidity ≠ 0) :
    getAmountOut p t a =
      if t = p.token0 then
        some ((p.sqrtPriceX96 * p.sqrtPriceX96 * p.liquidity / 2 ^ 192) *
          (a - a * p.fee / 1000000) / (p.liquidity + (a - a * p.fee / 1000000)))
      else if p.sqrtPriceX96 * p.sqrtPriceX96 = 0 then none
      else
        some ((p.liquidity * 2 ^ 192 / (p.sqrtPriceX96 * p.sqrtPriceX96)) *
          (a - a * p.fee / 1000000) / (p.liquidity + (a - a * p.fee / 1000000))) := by
  have hfee0 : (p.fee == 0) = false := beq_eq_false_iff_ne.mpr (by omega)
  have hliq0 : (p.liquidity == 0) = false := beq_eq_false_iff_ne.mpr hl
  unfold getAmountOut
  by_cases hdir : t = p.token0
  · simp [hdir, hfee0, hliq0]
  · by_cases hss : p.sqrtPriceX96 * p.sqrtPriceX96 = 0
    · simp [hdir, hfee0, hliq0, hss]
    · simp [hdir, hfee0, hliq0, hss]

/-- Hop-level comparison: with the same reserves, a lower fee and a larger
input never yield a smaller output; faults coincide. -/
theorem getAmountOut_FeeLE {p q : PoolState} (h : FeeLE p q) (t : String)
    {a₁ a₂ : Nat} (ha : a₂ ≤ a₁) :
    (getAmountOut q t a₂ = none ∧ getAmountOut p t a₁ = none) ∨
    (∃ n₂ n₁, getAmountOut q t a₂ = some n₂ ∧ getAmountOut p t a₁ = some n₁ ∧
      n₂ ≤ n₁) := by
  obtain ⟨haddr, ht0, ht1, hliq, hs, hf1, hff, hf2⟩ := h
  have haf : a₂ - a₂ * q.fee / 1000000 ≤ a₁ - a₁ * p.fee / 1000000 :=
    le_trans (afterFee_anti_fee a₂ p.fee q.fee hff)
      (afterFee_mono_amount p.fee (le_trans hff hf2) ha)
  by_cases hl : p.liquidity = 0
  · right
    refine ⟨0, 0, ?_, ?_, le_refl 0⟩
    · simp [getAmountOut, show q.liquidity = 0 from hliq ▸ hl]
    · simp [getAmountOut, hl]
  · have hql : q.liquidity ≠ 0 := fun hq => hl (hliq.trans hq)
    have hqf1 : 1 ≤ q.fee := le_trans hf1 hff
    rw [getAmountOut_eval p t a₁ hf1 hl, getAmountOut_eval q t a₂ hqf1 hql,
      ← ht0, ← hliq, ← hs]
    by_cases hdir : t = p.token0
    · right
      rw [if_pos hdir, if_pos hdir]
      exact ⟨_, _, rfl, rfl,
        cp_out_mono _ _ (Nat.pos_of_ne_zero hl) haf⟩
    · rw [if_neg hdir, if_neg hdir]
      by_cases hss : p.sqrtPriceX96 * p.sqrtPriceX96 = 0
      · left
        rw [if_pos hss, if_pos hss]
        exact ⟨rfl, rfl⟩
      · right
        rw [if_neg hss, if_neg hss]
        exact ⟨_, _, rfl, rfl,
          cp_out_mono _ _ (Nat.pos_of_ne_zero hl) haf⟩

theorem findPool_FeeLE {s₁ s₂ : List PoolState}
    (h : List.Forall₂ FeeLE s₁ s₂) (tA tB : String) :
    findPool s₁ tA tB = findPool s₂ tA tB := by
  unfold findPool getPoolsForToken
  have hfilter : List.Forall₂ FeeLE
      (s₁.filter fun p => p.token0 == tA || p.token1 == tA)
      (s₂.filter fun p => p.token0 == tA || p.token1 == tA) := by
    refine List.rel_filter ?_ h
    intro x y hxy
    obtain ⟨-, ht0, ht1, -⟩ := hxy
    simp [ht0, ht1]
  have hfind := forall2_find?
    (f := fun pool => (pool.token0 == tA && pool.token1 == tB) ||
      (pool.token0 == tB && pool.token1 == tA))
    (g := fun pool => (pool.token0 == tA && pool.token1 == tB) ||
      (pool.token0 == tB && pool.token1 == tA))
    (fun x y hxy => by
      obtain ⟨-, ht0, ht1, -⟩ := hxy
      simp [ht0, ht1]) hfilter
  rcases hfind with ⟨h₁, h₂⟩ | ⟨x, y, h₁, h₂, hxy⟩
  · rw [h₁, h₂]
  · rw [h₁, h₂]
    obtain ⟨haddr, -⟩ := hxy
    simp [haddr]

theorem getPoolState_FeeLE {s₁ s₂ : List PoolState}
    (h : List.Forall₂ FeeLE s₁ s₂) (addr : String) :
    (getPoolState s₁ addr = none ∧ getPoolState s₂ addr = none) ∨
    (∃ p q, getPoolState s₁ addr = some p ∧ getPoolState s₂ addr = some q ∧
      FeeLE p q) :=
  forall2_find? (fun x y hxy => by
    obtain ⟨haddr, -⟩ := hxy
    rw [haddr]) h

theorem simulatePath_FeeLE {s₁ s₂ : List PoolState}
    (h : List.Forall₂ FeeLE s₁ s₂) :
    ∀ (path : List String) {a₁ a₂ : Nat}, a₂ ≤ a₁ →
      (simulatePath s₂ path a₂ = .missing ∧ simulatePath s₁ path a₁ = .missing) ∨
      (simulatePath s₂ path a₂ = .fault ∧ simulatePath s₁ path a₁ = .fault) ∨
      (∃ n₂ n₁, simulatePath s₂ path a₂ = .ok n₂ ∧
        simulatePath s₁ path a₁ = .ok n₁ ∧ n₂ ≤ n₁) := by
  intro path
  induction path with
  | nil =>
    intro a₁ a₂ ha
    right; right
    exact ⟨a₂, a₁, rfl, rfl, ha⟩
  | cons t rest ih =>
    intro a₁ a₂ ha
    cases rest with
    | nil =>
      right; right
      exact ⟨a₂, a₁, rfl, rfl, ha⟩
    | cons u rest' =>
      have hpools := findPool_FeeLE h t u
      cases hfp : findPool s₁ t u with
      | none =>
        left
        constructor
        · simp only [simulatePath, ← hpools, hfp]
        · simp only [simulatePath, hfp]
      | some addr =>
        rcases getPoolState_FeeLE h addr with ⟨h₁, h₂⟩ | ⟨p, q, h₁, h₂, hpq⟩
        · left
          constructor
          · simp only [simulatePath, ← hpools, hfp, h₂]
          · simp only [simulatePath, hfp, h₁]
        · rcases getAmountOut_FeeLE hpq t ha with ⟨hqa, hpa⟩ | ⟨n₂, n₁, hqa, hpa, hn⟩
          · right; left
            constructor
            · simp only [simulatePath, ← hpools, hfp, h₂, hqa]
            · simp only [simulatePath, hfp, h₁, hpa]
          · have e₂ : simulatePath s₂ (t :: u :: rest') a₂ =
                simulatePath s₂ (u :: rest') n₂ := by
              simp only [simulatePath, ← hpools, hfp, h₂, hqa]
            have e₁ : simulatePath s₁ (t :: u :: rest') a₁ =
                simulatePath s₁ (u :: rest') n₁ := by
              simp only [simulatePath, hfp, h₁, hpa]
            rw [e₂, e₁]
            exact ih hn

/-- C5 (amended): holding reserves fixed, the simulated output along any
route is non-increasing in the per-pool fees over the range `1 ≤ fee ≤
10^6`.  A fee of `0` must be excluded: the source replaces a falsy fee with
the default `3000` ppm, so raising a fee from `0` to a small positive value
can increase the output (see the counterexample). -/
theorem claim5_fee_monotone (s₁ s₂ : List PoolState)
    (h : List.Forall₂ FeeLE s₁ s₂) (path : List String) (amountIn : Nat)
    (n₁ n₂ : Nat) (h₁ : simulatePath s₁ path amountIn = .ok n₁)
    (h₂ : simulatePath s₂ path amountIn = .ok n₂) : n₂ ≤ n₁ := by
  rcases simulatePath_FeeLE h path (le_refl amountIn) with
    ⟨ha, hb⟩ | ⟨ha, hb⟩ | ⟨m₂, m₁, ha, hb, hm⟩
  · rw [h₂] at ha; cases ha
  · rw [h₂] at ha; cases ha
  · rw [h₂] at ha
    rw [h₁] at hb
    cases ha
    cases hb
    exact hm

/-- Pools for the C5 counterexample: identical reserves, fees `0` and
`100`. -/
def cxPoolF1 : PoolState := ⟨"pAB", "A", "B", 1000000, 2 ^ 96, 0⟩

def cxPoolF2 : PoolState := ⟨"pAB", "A", "B", 1000000, 2 ^ 96, 100⟩

/-- C5 counterexample: with reserves held fixed and fees `f₁ = 0 ≤ f₂ =
100`, the simulation with the larger fee outputs `999`, strictly more than
the `996` produced with fee `0` (which the source silently replaces by
`3000` ppm), refuting non-increase in the fee. -/
theorem claim5_cx :
    cxPoolF1.fee = 0 ∧ cxPoolF2.fee = 100 ∧ cxPoolF1.fee ≤ cxPoolF2.fee ∧
    simulatePath [cxPoolF1] ["A", "B"] 1000 = .ok 996 ∧
    simulatePath [cxPoolF2] ["A", "B"] 1000 = .ok 999 ∧ ¬(999 ≤ 996) :=
  ⟨rfl, rfl, by decide, rfl, rfl, by decide⟩

/-- Pools for the C5 witness: fees 500 and 3000 ppm. -/
def wPoolF1 : PoolState := ⟨"pAB", "A", "B", 1000000, 2 ^ 96, 500⟩

def wPoolF2 : PoolState := ⟨"pAB", "A", "B", 1000000, 2 ^ 96, 3000⟩

/-- Witness for `claim5_fee_monotone` at a concrete input. -/
theorem claim5_witness : (996 : Nat) ≤ 999 :=
  claim5_fee_monotone [wPoolF1] [wPoolF2]
    (List.Forall₂.cons ⟨rfl, rfl, rfl, rfl, rfl, by decide, by decide, by decide⟩
      List.Forall₂.nil)
    ["A", "B"] 1000 999 996 rfl rfl

/-! ## The quote orchestration pipeline (`ControllerService.getQuotes`) -/

/-- Token metadata, from the source `Token` interface in `domain/entities`
(`logoURI` omitted: never read by the pipeline). -/
structure Token where
  symbol : String
  tokenName : String
  address : String
  decimals : Nat
  chainId : Nat
deriving Repr, DecidableEq

/-- Liquidity pool entity, from the source `Pool` interface in
`domain/entities`.  The optional `sqrtPriceX96`/`liquidity` are `Nat` here;
`getAssociatedPools` fills every numeric field with `0`. -/
structure Pool where
  address : String
  token0 : Token
  token1 : Token
  reserve0 : Nat
  reserve1 : Nat
  feeTier : Nat
  sqrtPriceX96 : Nat
  liquidity : Nat
deriving Repr, DecidableEq

/-- The `Quote` produced by `calculateBestPrice` in `domain/pricing`: the
source's `price` field is the float `1 / (Number(sqrtPriceX96) / 2^96)²`, a
pure function of the first pool's `sqrtPriceX96`; floating point is outside
this model, so the quote carries that `sqrtPriceX96` argument together with
the `poolAddress`.  Two source quotes from pools with different addresses
are distinct, as here. -/
structure Quote where
  sqrtPriceX96 : Nat
  poolAddress : String
deriving Repr, DecidableEq

/-- `calculateBestPrice(tokenIn, tokenOut, amountIn, pools)`: `null` iff the
pool list is empty, otherwise a quote computed from the first pool. -/
def calculateBestPrice (tokenIn tokenOut : Token) (amountIn : Nat)
    (pools : List Pool) : Option Quote :=
  match pools with
  | [] => none
  | firstPool :: _ => some ⟨firstPool.sqrtPriceX96, firstPool.address⟩

/-- What a resolution handle is resolved with: the computed quote, or the
failure payload (`{ error: 'Could not calculate price' }`). -/
inductive Outcome where
  | quote : Quote → Outcome
  | failure : String → Outcome
deriving Repr, DecidableEq

/-- Modelled from the spec: the `DispatcherService` class is not among the
sources, only its callers are.  §4.5 specifies a map from request id to
resolution handle that "resolves each pending handle exactly once".  The
dispatcher state is the list of registered handles; `none` is a registered
but unresolved handle. -/
def registerHandle (d : List (Nat × Option Outcome)) (id : Nat) :
    List (Nat × Option Outcome) :=
  (id, none) :: d

/-- Modelled from the spec: `DispatcherService.dispatch` resolves the first
handle registered under the id, exactly once — an already resolved handle is
left untouched. -/
def dispatch : List (Nat × Option Outcome) → Nat → Outcome →
    List (Nat × Option Outcome)
  | [], _, _ => []
  | (i, r) :: rest, id, out =>
    if i = id then
      match r with
      | none => (i, some out) :: rest
      | some r₀ => (i, some r₀) :: rest
    else (i, r) :: dispatch rest id out

/-- The handle registered under an id: `none` if never registered, `some
none` if registered and unresolved, `some (some out)` if resolved. -/
def handleOf (d : List (Nat × Option Outcome)) (id : Nat) :
    Option (Option Outcome) :=
  (d.find? (fun e => e.1 == id)).map (·.2)

/-- Cache key, from `CacheService.generateKey(tokenIn, tokenOut, amount)`:
the request key `(tokenIn, tokenOut, amountIn)` of the spec. -/
abbrev CacheKey := String × String × Nat

/-- Modelled from the spec: quote cache TTL, default 10 s. -/
def CACHE_TTL : Nat := 10000

/-- Modelled from the spec: the `CacheService` class is not among the
sources.  §4.5 specifies a `(tokenIn, tokenOut, amountIn)`-keyed `get`/`put`
cache with TTL, where an entry is never returned past its expiry. -/
def cacheGet (cache : List (CacheKey × Quote × Nat)) (now : Nat)
    (key : CacheKey) : Option Quote :=
  match cache.find? (fun e => e.1 == key) with
  | none => none
  | some (_, q, expiresAt) => if now < expiresAt then some q else none

/-- Modelled from the spec: `CacheService.setQuote` stores the freshest
entry for the key. -/
def cacheSet (cache : List (CacheKey × Quote × Nat)) (key : CacheKey)
    (q : Quote) (expiresAt : Nat) : List (CacheKey × Quote × Nat) :=
  (key, q, expiresAt) :: cache

/-- `REFRESH_INTERVAL = 10000` ms from `ControllerService`. -/
def REFRESH_INTERVAL : Nat := 10000

/-- Error payload string dispatched by the stale branch on a failed price
calculation. -/
def ERROR_MSG : String := "Could not calculate price"

/-- Map lookup by string key (the JavaScript `Map.get`). -/
def lookupStr {α : Type} (l : List (String × α)) (k : String) : Option α :=
  (l.find? (fun e => e.1 == k)).map (·.2)

/-- The environment of one `getQuotes` flush: the token metadata and pool
index loaded by `loadInitialData`, the external batched reader (a function
of the addresses and chain: the chain state is fixed for the duration of
one synchronous flush), and the current time (`Date.now()`, constant during
the synchronous flush). -/
structure CtrlConfig where
  tokenMetadata : List (String × Token)
  ethereumPools : List (String × String)
  polygonPools : List (String × String)
  fetchPoolData : List String → Nat → List Pool
  now : Nat

/-- Mutable state threaded through a flush: `lastUpdated` per token
address, the quote cache and the dispatcher's handles. -/
structure CtrlState where
  lastUpdated : List (String × Nat)
  cache : List (CacheKey × Quote × Nat)
  dispatcher : List (Nat × Option Outcome)
deriving Repr, DecidableEq

/-- A pending quote request (`QuoteRequest` of `RequestBatcher`): its
resolution handle lives in the dispatcher under `id`. -/
structure QuoteRequest where
  id : Nat
  tokenIn : Token
  tokenOut : Token
  amount : Nat
deriving Repr, DecidableEq

/-- Observable side effects of a flush: on-chain batched fetches and price
computations (invocations of `calculateBestPrice`, tagged by cache key). -/
inductive PipeEv where
  | fetch : List String → Nat → PipeEv
  | compute : CacheKey → PipeEv
deriving Repr, DecidableEq

/-- Insert an address into the per-chain grouping.  JavaScript objects
iterate integer-like keys in ascending order, so the groups are kept sorted
by chain id. -/
def insertGrouped : List (Nat × List String) → Nat → String →
    List (Nat × List String)
  | [], c, a => [(c, [a])]
  | (c₀, as₀) :: rest, c, a =>
    if c = c₀ then (c₀, as₀ ++ [a]) :: rest
    else if c < c₀ then (c, [a]) :: (c₀, as₀) :: rest
    else (c₀, as₀) :: insertGrouped rest c a

/-- `ControllerService.groupTokensByChain`: group the addresses by the
chain id of their metadata, skipping addresses without metadata. -/
def groupTokensByChain (cfg : CtrlConfig) (tokenAddresses : List String) :
    List (Nat × List String) :=
  tokenAddresses.foldl (fun grouped address =>
    match lookupStr cfg.tokenMetadata address with
    | some metadata => insertGrouped grouped metadata.chainId address
    | none => grouped) []

/-- Split a character list on `'_'`, as the JavaScript `split('_')` does
(implemented on characters so that it evaluates by kernel reduction). -/
def splitParts : List Char → List (List Char)
  | [] => [[]]
  | c :: rest =>
    if c = '_' then [] :: splitParts rest
    else
      match splitParts rest with
      | [] => [[c]]
      | p :: ps => (c :: p) :: ps

/-- `poolKey.split('_')` of the source: the list of underscore-separated
components of a pool key such as `"tokenA_tokenB"`. -/
def splitKey (poolKey : String) : List String :=
  (splitParts poolKey.toList).map String.mk

/-- The loop of `ControllerService.getAssociatedPools` over the pool index
of the chain: a pool record keyed `"tokenA_tokenB"` is selected when either
side is among the addresses and both sides have metadata; the constructed
`Pool` carries zeros for all on-chain numeric fields. -/
def associatedPoolsOf (cfg : CtrlConfig) (addrs : List String) :
    List (String × String) → List Pool
  | [] => []
  | (poolKey, poolAddress) :: rest =>
    if addrs.contains ((splitKey poolKey).getD 0 "") ||
        addrs.contains ((splitKey poolKey).getD 1 "") then
      match lookupStr cfg.tokenMetadata ((splitKey poolKey).getD 0 ""),
          lookupStr cfg.tokenMetadata ((splitKey poolKey).getD 1 "") with
      | some tokenA, some tokenB =>
        ⟨poolAddress, tokenA, tokenB, 0, 0, 0, 0, 0⟩ ::
          associatedPoolsOf cfg addrs rest
      | _, _ => associatedPoolsOf cfg addrs rest
    else associatedPoolsOf cfg addrs rest

/-- `ControllerService.getAssociatedPools(tokenAddresses, chainId)`:
`chainId === 1` selects the ethereum pool index, anything else the polygon
one. -/
def getAssociatedPools (cfg : CtrlConfig) (tokenAddresses : List String)
    (chainId : Nat) : List Pool :=
  associatedPoolsOf cfg tokenAddresses
    (if chainId = 1 then cfg.ethereumPools else cfg.polygonPools)

/-- The request key used for the cache. -/
def requestKey (req : QuoteRequest) : CacheKey :=
  (req.tokenIn.address, req.tokenOut.address, req.amount)

/-- `new Set([tokenIn.address, tokenOut.address])` in insertion order. -/
def tokensToUpdate (req : QuoteRequest) : List String :=
  if req.tokenIn.address = req.tokenOut.address then [req.tokenIn.address]
  else [req.tokenIn.address, req.tokenOut.address]

/-- The staleness test of `ControllerService.getQuotes`: some involved
token was never refreshed (`!lastUpdate`, also true for a recorded `0`) or
was refreshed longer than `REFRESH_INTERVAL` ago. -/
def needsUpdate (cfg : CtrlConfig) (st : CtrlState) (req : QuoteRequest) : Bool :=
  (tokensToUpdate req).any (fun address =>
    match lookupStr st.lastUpdated address with
    | none => true
    | some lastUpdate =>
      lastUpdate == 0 || decide (cfg.now - lastUpdate > REFRESH_INTERVAL))

/-- The per-chain-group loop of `ControllerService.getQuotes` on a cache
miss.  The source duplicates this loop almost verbatim in the stale
(`needsUpdate`) and fresh branches; both fetch and compute identically, and
they differ only in that the stale branch advances `lastUpdated` on success
and dispatches the error payload when the price calculation fails, while
the fresh branch does neither.  The `stale` flag selects the branch. -/
def processGroups (cfg : CtrlConfig) (req : QuoteRequest) (key : CacheKey)
    (stale : Bool) : List (Nat × List String) → CtrlState →
    CtrlState × List PipeEv
  | [], st => (st, [])
  | (chainId, addresses) :: groups, st =>
    if (getAssociatedPools cfg addresses chainId).isEmpty then
      processGroups cfg req key stale groups st
    else
      match lookupStr cfg.tokenMetadata req.tokenIn.address,
          lookupStr cfg.tokenMetadata req.tokenOut.address with
      | some tokenIn, some tokenOut =>
        match calculateBestPrice tokenIn tokenOut req.amount
            (cfg.fetchPoolData ((getAssociatedPools cfg addresses chainId).map
              (·.address)) chainId) with
        | some quote =>
          let st' : CtrlState :=
            { lastUpdated :=
                if stale then
                  addresses.foldl (fun lu a => (a, cfg.now) :: lu) st.lastUpdated
                else st.lastUpdated
              cache := cacheSet st.cache key quote (cfg.now + CACHE_TTL)
              dispatcher := dispatch st.dispatcher req.id (.quote quote) }
          let res := processGroups cfg req key stale groups st'
          (res.1, .fetch ((getAssociatedPools cfg addresses chainId).map
            (·.address)) chainId :: .compute key :: res.2)
        | none =>
          let st' : CtrlState :=
            if stale then
              { st with
                dispatcher := dispatch st.dispatcher req.id (.failure ERROR_MSG) }
            else st
          let res := processGroups cfg req key stale groups st'
          (res.1, .fetch ((getAssociatedPools cfg addresses chainId).map
            (·.address)) chainId :: .compute key :: res.2)
      | _, _ =>
        let res := processGroups cfg req key stale groups st
        (res.1, .fetch ((getAssociatedPools cfg addresses chainId).map
          (·.address)) chainId :: res.2)

/-- One iteration of the `for (const request of uniqueRequests)` loop: a
cache hit dispatches the cached quote; a miss runs the per-chain-group loop
in the branch selected by the staleness test. -/
def processRequest (cfg : CtrlConfig) (st : CtrlState) (req : QuoteRequest) :
    CtrlState × List PipeEv :=
  match cacheGet st.cache cfg.now (requestKey req) with
  | some cachedQuote =>
    ({ st with dispatcher := dispatch st.dispatcher req.id (.quote cachedQuote) },
      [])
  | none =>
    processGroups cfg req (requestKey req) (needsUpdate cfg st req)
      (groupTokensByChain cfg (tokensToUpdate req)) st

/-- `new Map(requests.map(req => [req.id, req]))`: per id, the first
occurrence keeps its position and the last occurrence supplies the value. -/
def upsertById : List QuoteRequest → QuoteRequest → List QuoteRequest
  | [], r => [r]
  | r₀ :: rest, r => if r₀.id = r.id then r :: rest else r₀ :: upsertById rest r

def dedupeById (requests : List QuoteRequest) : List QuoteRequest :=
  requests.foldl upsertById []

/-- Process the remaining unique requests in order, threading the state and
concatenating the emitted events. -/
def processAll (cfg : CtrlConfig) : List QuoteRequest → CtrlState →
    CtrlState × List PipeEv
  | [], st => (st, [])
  | req :: rest, st =>
    let one := processRequest cfg st req
    let res := processAll cfg rest one.1
    (res.1, one.2 ++ res.2)

/-- `ControllerService.getQuotes(requests)`: register every request's
resolution handle, deduplicate by id, then process the unique requests in
order. -/
def getQuotes (cfg : CtrlConfig) (st : CtrlState)
    (requests : List QuoteRequest) : CtrlState × List PipeEv :=
  processAll cfg (dedupeById requests)
    { st with dispatcher :=
        requests.foldl (fun d r => registerHandle d r.id) st.dispatcher }

/-! ### Claim 9: the batched reader returns empty on aggregate failure -/

/-- The `{} as Token` placeholder the source puts in a fetched pool
record. -/
def emptyToken : Token := ⟨"", "", "", 0, 0⟩

/-- `EthersAdapter.getBatchPoolData(poolAddresses, chainId)`.  External
effects are parameters: `hasProvider` says whether a provider is configured
for the chain (`getProvider` throws otherwise — modelled as result `none`);
`isAddress` is `ethers.isAddress`; `aggregate` is the multicall over the
valid addresses (three encoded calls — `slot0`, `liquidity`, `fee` — per
address): its outer `none` models a failed/rejected aggregate call, and a
per-pool `none` models a decode throw for that pool's three return blobs,
which the source skips with `continue`.  An address must also be truthy
(non-empty) to pass the `addr && ethers.isAddress(addr)` filter. -/
def getBatchPoolData (hasProvider : Nat → Bool) (isAddress : String → Bool)
    (aggregate : List String → Option (List (Option (Nat × Nat × Nat))))
    (poolAddresses : List String) (chainId : Nat) : Option (List Pool) :=
  if poolAddresses.isEmpty then some []
  else if !hasProvider chainId then none
  else if (poolAddresses.filter (fun a => !(a == "") && isAddress a)).isEmpty then
    some []
  else
    match aggregate (poolAddresses.filter (fun a => !(a == "") && isAddress a)) with
    | none => some []
    | some returnData =>
      some (((poolAddresses.filter (fun a => !(a == "") && isAddress a)).zip
          returnData).foldr (fun ar acc =>
        match ar.2 with
        | none => acc
        | some (sqrtP, liq, fee) =>
          ⟨ar.1, emptyToken, emptyToken, 0, 0, fee, sqrtP, liq⟩ :: acc) [])

/-- C9 (amended): on a chain id with a configured provider, a failed
aggregate multicall yields the empty list — never a partial or garbled pool
record — and so does an input with no valid addresses; the empty input
yields the empty list for every chain id, before the provider lookup.  The
provider restriction is forced: for a chain id without a configured
provider, a nonempty input makes `getProvider` throw instead of returning a
value (see the counterexample). -/
theorem claim9_empty_on_failure (hasProvider : Nat → Bool)
    (isAddress : String → Bool)
    (aggregate : List String → Option (List (Option (Nat × Nat × Nat)))) :
    (∀ chainId,
      getBatchPoolData hasProvider isAddress aggregate [] chainId = some []) ∧
    (∀ (poolAddresses : List String) (chainId : Nat),
      hasProvider chainId = true →
      poolAddresses.filter (fun a => !(a == "") && isAddress a) = [] →
      getBatchPoolData hasProvider isAddress aggregate poolAddresses chainId =
        some []) ∧
    (∀ (poolAddresses : List String) (chainId : Nat),
      hasProvider chainId = true →
      aggregate (poolAddresses.filter (fun a => !(a == "") && isAddress a)) =
        none →
      getBatchPoolData hasProvider isAddress aggregate poolAddresses chainId =
        some []) := by
  refine ⟨?_, ?_, ?_⟩
  · intro chainId
    simp [getBatchPoolData]
  · intro poolAddresses chainId hprov hvalid
    unfold getBatchPoolData
    by_cases hempty : poolAddresses.isEmpty
    · simp [hempty]
    · simp [hempty, hprov, hvalid]
  · intro poolAddresses chainId hprov hagg
    unfold getBatchPoolData
    by_cases hempty : poolAddresses.isEmpty
    · simp [hempty]
    · by_cases hvalid :
        (poolAddresses.filter (fun a => !(a == "") && isAddress a)).isEmpty
      · simp [hempty, hprov, hvalid]
      · simp [hempty, hprov, hvalid, hagg]

/-- C9 counterexample: with no provider configured for chain `99`, an input
with no valid addresses makes the source throw in `getProvider` (result
`none` here) rather than return the empty list. -/
theorem claim9_cx :
    (["0xdead"].filter (fun a => !(a == "") && (fun _ => false) a)) = [] ∧
    getBatchPoolData (fun _ => false) (fun _ => false) (fun _ => some [])
      ["0xdead"] 99 = none ∧
    (none : Option (List Pool)) ≠ some [] :=
  ⟨rfl, rfl, by decide⟩

/-- Witness for `claim9_empty_on_failure` at concrete inputs. -/
theorem claim9_witness :
    getBatchPoolData (fun c => c == 1) (fun a => a == "0xok")
      (fun _ => none) [] 7 = some [] ∧
    getBatchPoolData (fun c => c == 1) (fun a => a == "0xok")
      (fun _ => none) ["bad"] 1 = some [] ∧
    getBatchPoolData (fun c => c == 1) (fun a => a == "0xok")
      (fun _ => none) ["0xok"] 1 = some [] :=
  ⟨(claim9_empty_on_failure (fun c => c == 1) (fun a => a == "0xok")
      (fun _ => none)).1 7,
   (claim9_empty_on_failure (fun c => c == 1) (fun a => a == "0xok")
      (fun _ => none)).2.1 ["bad"] 1 rfl rfl,
   (claim9_empty_on_failure (fun c => c == 1) (fun a => a == "0xok")
      (fun _ => none)).2.2 ["0xok"] 1 rfl rfl⟩

/-! ### Claim 8: resolution handles -/

theorem handleOf_cons_self (i : Nat) (r : Option Outcome)
    (rest : List (Nat × Option Outcome)) :
    handleOf ((i, r) :: rest) i = some r := by
  simp [handleOf]

theorem handleOf_cons_ne (i : Nat) (r : Option Outcome)
    (rest : List (Nat × Option Outcome)) (id : Nat) (h : i ≠ id) :
    handleOf ((i, r) :: rest) id = handleOf rest id := by
  unfold handleOf
  rw [List.find?_cons_of_neg _ (by simp [h])]

theorem dispatch_cons_hit (i : Nat) (r : Option Outcome)
    (rest : List (Nat × Option Outcome)) (o : Outcome) :
    dispatch ((i, r) :: rest) i o =
      (i, some (r.getD o)) :: rest := by
  cases r <;> simp [dispatch]

theorem dispatch_cons_ne (i : Nat) (r : Option Outcome)
    (rest : List (Nat × Option Outcome)) (id : Nat) (o : Outcome)
    (h : i ≠ id) :
    dispatch ((i, r) :: rest) id o = (i, r) :: dispatch rest id o := by
  simp [dispatch, h]

theorem dispatch_preserves_resolved :
    ∀ (d : List (Nat × Option Outcome)) (id : Nat) (o : Outcome) (id' : Nat)
      (o' : Outcome), handleOf d id = some (some o) →
      handleOf (dispatch d id' o') id = some (some o) := by
  intro d
  induction d with
  | nil => intro id o id' o' h; simp [handleOf] at h
  | cons e rest ih =>
    intro id o id' o' h
    obtain ⟨i, r⟩ := e
    by_cases hii : i = id
    · subst hii
      rw [handleOf_cons_self] at h
      have hr : r = some o := by injection h
      subst hr
      by_cases hid : i = id'
      · subst hid
        rw [dispatch_cons_hit, handleOf_cons_self]
        rfl
      · rw [dispatch_cons_ne _ _ _ _ _ hid, handleOf_cons_self]
    · rw [handleOf_cons_ne _ _ _ _ hii] at h
      by_cases hid : i = id'
      · subst hid
        rw [dispatch_cons_hit, handleOf_cons_ne _ _ _ _ hii]
        exact h
      · rw [dispatch_cons_ne _ _ _ _ _ hid, handleOf_cons_ne _ _ _ _ hii]
        exact ih id o id' o' h

theorem dispatch_ne (d : List (Nat × Option Outcome)) (id id' : Nat)
    (o : Outcome) (h : id ≠ id') :
    handleOf (dispatch d id' o) id = handleOf d id := by
  induction d with
  | nil => simp [dispatch]
  | cons e rest ih =>
    obtain ⟨i, r⟩ := e
    by_cases hid : i = id'
    · subst hid
      have hii : i ≠ id := fun hi => h (hi ▸ rfl)
      rw [dispatch_cons_hit, handleOf_cons_ne _ _ _ _ hii,
        handleOf_cons_ne _ _ _ _ hii]
    · rw [dispatch_cons_ne _ _ _ _ _ hid]
      by_cases hii : i = id
      · subst hii
        rw [handleOf_cons_self, handleOf_cons_self]
      · rw [handleOf_cons_ne _ _ _ _ hii, handleOf_cons_ne _ _ _ _ hii]
        exact ih

theorem dispatch_resolve (d : List (Nat × Option Outcome)) (id : Nat)
    (o : Outcome) (h : handleOf d id = some none) :
    handleOf (dispatch d id o) id = some (some o) := by
  induction d with
  | nil => simp [handleOf] at h
  | cons e rest ih =>
    obtain ⟨i, r⟩ := e
    by_cases hii : i = id
    · subst hii
      rw [handleOf_cons_self] at h
      have hr : r = none := by injection h
      subst hr
      rw [dispatch_cons_hit, handleOf_cons_self]
      rfl
    · rw [handleOf_cons_ne _ _ _ _ hii] at h
      rw [dispatch_cons_ne _ _ _ _ _ hii, handleOf_cons_ne _ _ _ _ hii]
      exact ih h

theorem processGroups_preserves (cfg : CtrlConfig) (req : QuoteRequest)
    (key : CacheKey) (stale : Bool) (id : Nat) (o : Outcome) :
    ∀ (groups : List (Nat × List String)) (st : CtrlState),
      handleOf st.dispatcher id = some (some o) →
      handleOf (processGroups cfg req key stale groups st).1.dispatcher id =
        some (some o) := by
  intro groups
  induction groups with
  | nil => intro st h; simpa [processGroups] using h
  | cons g rest ih =>
    intro st h
    obtain ⟨chainId, addresses⟩ := g
    simp only [processGroups]
    split
    · exact ih st h
    · split
      · split
        · exact ih _ (dispatch_preserves_resolved _ _ _ _ _ h)
        · cases stale with
          | true => exact ih _ (dispatch_preserves_resolved _ _ _ _ _ h)
          | false => exact ih _ h
      · exact ih st h

theorem processRequest_preserves (cfg : CtrlConfig) (st : CtrlState)
    (req : QuoteRequest) (id : Nat) (o : Outcome)
    (h : handleOf st.dispatcher id = some (some o)) :
    handleOf (processRequest cfg st req).1.dispatcher id = some (some o) := by
  unfold processRequest
  cases hc : cacheGet st.cache cfg.now (requestKey req) with
  | none => exact processGroups_preserves cfg req _ _ id o _ st h
  | some q => exact dispatch_preserves_resolved _ _ _ _ _ h

theorem processAll_preserves (cfg : CtrlConfig) (id : Nat) (o : Outcome) :
    ∀ (reqs : List QuoteRequest) (st : CtrlState),
      handleOf st.dispatcher id = some (some o) →
      handleOf (processAll cfg reqs st).1.dispatcher id = some (some o) := by
  intro reqs
  induction reqs with
  | nil => intro st h; simpa [processAll] using h
  | cons r rest ih =>
    intro st h
    simp only [processAll]
    exact ih _ (processRequest_preserves cfg st r id o h)

/-- C8 (amended): a handle is resolved at most once — once resolved, no
later dispatch of the flush changes it — and the cache-hit path resolves a
registered handle exactly once, with the cached quote.  The claim's
"exactly once on every path" fails: missing token metadata, an empty
associated-pool set, and a failed price calculation in the fresh branch all
leave the registered handle unresolved (see the counterexample). -/
theorem claim8_handle_resolution :
    (∀ (cfg : CtrlConfig) (reqs : List QuoteRequest) (st : CtrlState)
      (id : Nat) (o : Outcome),
      handleOf st.dispatcher id = some (some o) →
      handleOf (processAll cfg reqs st).1.dispatcher id = some (some o)) ∧
    (∀ (cfg : CtrlConfig) (st : CtrlState) (req : QuoteRequest) (q : Quote),
      cacheGet st.cache cfg.now (requestKey req) = some q →
      handleOf st.dispatcher req.id = some none →
      handleOf (processRequest cfg st req).1.dispatcher req.id =
        some (some (.quote q))) := by
  constructor
  · intro cfg reqs st id o h
    exact processAll_preserves cfg id o reqs st h
  · intro cfg st req q hq hreg
    unfold processRequest
    rw [hq]
    exact dispatch_resolve _ _ _ hreg

/-- Concrete data refuting C8 as stated: no token metadata is loaded. -/
def tokAC8 : Token := ⟨"A", "A", "A", 18, 1⟩

def tokBC8 : Token := ⟨"B", "B", "B", 18, 1⟩

def cfgC8 : CtrlConfig := ⟨[], [("A_B", "poolE")], [], fun _ _ => [], 50000⟩

def stC8 : CtrlState := ⟨[], [], []⟩

def reqC8 : QuoteRequest := ⟨42, tokAC8, tokBC8, 777⟩

/-- C8 counterexample: on a cache miss with no token metadata, no chain
group is formed, nothing is dispatched, and the flush ends with the
request's handle registered but unresolved — the handle is not resolved
exactly once. -/
theorem claim8_cx :
    cacheGet stC8.cache cfgC8.now (requestKey reqC8) = none ∧
    handleOf (getQuotes cfgC8 stC8 [reqC8]).1.dispatcher reqC8.id = some none :=
  ⟨rfl, rfl⟩

def qW8 : Quote := ⟨111, "poolE"⟩

def cfgW8 : CtrlConfig := ⟨[], [], [], fun _ _ => [], 50000⟩

def stW8a : CtrlState := ⟨[], [], [(5, some (.quote qW8))]⟩

def stW8b : CtrlState := ⟨[], [(("A", "A", 1), qW8, 60000)], [(7, none)]⟩

def reqW8a : QuoteRequest := ⟨5, tokAC8, tokAC8, 1⟩

def reqW8b : QuoteRequest := ⟨7, tokAC8, tokAC8, 1⟩

/-- Witness for `claim8_handle_resolution` at concrete inputs. -/
theorem claim8_witness :
    handleOf (processAll cfgW8 [reqW8a] stW8a).1.dispatcher 5 =
      some (some (.quote qW8)) ∧
    handleOf (processRequest cfgW8 stW8b reqW8b).1.dispatcher 7 =
      some (some (.quote qW8)) :=
  ⟨claim8_handle_resolution.1 cfgW8 [reqW8a] stW8a 5 (.quote qW8) rfl,
   claim8_handle_resolution.2 cfgW8 stW8b reqW8b qW8 rfl rfl⟩

/-! ### Claim 7: fetching versus staleness -/

def isFetch : PipeEv → Bool
  | .fetch _ _ => true
  | .compute _ => false

/-- The on-chain fetches a cache miss provokes: one batched fetch per chain
group whose associated pool set is nonempty — independent of any staleness
state. -/
def fetchesOnMiss (cfg : CtrlConfig) (req : QuoteRequest) : List PipeEv :=
  (groupTokensByChain cfg (tokensToUpdate req)).filterMap (fun g =>
    if (getAssociatedPools cfg g.2 g.1).isEmpty then none
    else some (.fetch ((getAssociatedPools cfg g.2 g.1).map (·.address)) g.1))

theorem processGroups_fetches (cfg : CtrlConfig) (req : QuoteRequest)
    (key : CacheKey) (stale : Bool) :
    ∀ (groups : List (Nat × List String)) (st : CtrlState),
      (processGroups cfg req key stale groups st).2.filter isFetch =
        groups.filterMap (fun g =>
          if (getAssociatedPools cfg g.2 g.1).isEmpty then none
          else some (.fetch ((getAssociatedPools cfg g.2 g.1).map (·.address))
            g.1)) := by
  intro groups
  induction groups with
  | nil => intro st; simp [processGroups]
  | cons g rest ih =>
    intro st
    obtain ⟨chainId, addresses⟩ := g
    simp only [processGroups]
    split
    · next hemp =>
      simp only [List.filterMap_cons, hemp, if_true]
      exact ih st
    · next hemp =>
      simp only [List.filterMap_cons, hemp, Bool.false_eq_true, if_false]
      split
      · split
        · simp [List.filter_cons, isFetch, ih]
        · simp [List.filter_cons, isFetch, ih]
      · simp [List.filter_cons, isFetch, ih]

/-- C7 (amended): on a cache miss the pipeline issues the batched on-chain
fetch for every chain group with a nonempty associated pool set regardless
of the staleness of the involved tokens — the staleness test only selects
whether `lastUpdated` is advanced and whether a failed price calculation
dispatches an error.  Only a cache hit is served without fetching.  The
claim's "when both tokens are within the staleness window, the quote is
computed without any on-chain fetch" is refuted by the counterexample. -/
theorem claim7_fetch_on_every_miss :
    (∀ (cfg : CtrlConfig) (st : CtrlState) (req : QuoteRequest) (q : Quote),
      cacheGet st.cache cfg.now (requestKey req) = some q →
      (processRequest cfg st req).2 = []) ∧
    (∀ (cfg : CtrlConfig) (st : CtrlState) (req : QuoteRequest),
      cacheGet st.cache cfg.now (requestKey req) = none →
      (processRequest cfg st req).2.filter isFetch = fetchesOnMiss cfg req) := by
  constructor
  · intro cfg st req q hq
    unfold processRequest
    rw [hq]
  · intro cfg st req hmiss
    unfold processRequest
    rw [hmiss]
    exact processGroups_fetches cfg req (requestKey req) (needsUpdate cfg st req)
      (groupTokensByChain cfg (tokensToUpdate req)) st

/-- Concrete data refuting C7 as stated: both tokens freshly refreshed. -/
def tokAC7 : Token := ⟨"A", "A", "A", 18, 1⟩

def tokBC7 : Token := ⟨"B", "B", "B", 18, 1⟩

def cfgC7 : CtrlConfig :=
  ⟨[("A", tokAC7), ("B", tokBC7)], [("A_B", "poolE")], [],
    fun _ _ => [⟨"poolE", tokAC7, tokBC7, 0, 0, 0, 111, 0⟩], 50000⟩

def stC7 : CtrlState := ⟨[("A", 50000), ("B", 50000)], [], []⟩

def reqC7 : QuoteRequest := ⟨1, tokAC7, tokBC7, 1000⟩

/-- C7 counterexample: both tokens were refreshed at `now` (well within the
10 s window, `needsUpdate` is `false`), the cache misses — and the flush
still issues the batched on-chain fetch for the associated pool. -/
theorem claim7_cx :
    needsUpdate cfgC7 stC7 reqC7 = false ∧
    cacheGet stC7.cache cfgC7.now (requestKey reqC7) = none ∧
    (getQuotes cfgC7 stC7 [reqC7]).2 =
      [.fetch ["poolE"] 1, .compute ("A", "B", 1000)] :=
  ⟨rfl, rfl, rfl⟩

def qW7 : Quote := ⟨9, "p"⟩

def cfgW7 : CtrlConfig := ⟨[], [], [], fun _ _ => [], 50000⟩

def stW7 : CtrlState := ⟨[], [(("A", "B", 5), qW7, 60000)], []⟩

def reqW7 : QuoteRequest := ⟨1, tokAC7, tokBC7, 5⟩

/-- Witness for `claim7_fetch_on_every_miss` at concrete inputs. -/
theorem claim7_witness :
    (processRequest cfgW7 stW7 reqW7).2 = [] ∧
    (processRequest cfgC7 stC7 reqC7).2.filter isFetch =
      fetchesOnMiss cfgC7 reqC7 :=
  ⟨claim7_fetch_on_every_miss.1 cfgW7 stW7 reqW7 qW7 rfl,
   claim7_fetch_on_every_miss.2 cfgC7 stC7 reqC7 rfl⟩

/-! ### Claim 6: deduplication and fan-out of identical requests -/

theorem upsertById_not_mem (r : QuoteRequest) :
    ∀ acc : List QuoteRequest, r.id ∉ acc.map (·.id) →
      upsertById acc r = acc ++ [r] := by
  intro acc
  induction acc with
  | nil => intro h; rfl
  | cons r₀ rest ih =>
    intro h
    have h₀ : r₀.id ≠ r.id := by
      intro he
      exact h (by simp [← he])
    have hrest : r.id ∉ rest.map (·.id) := fun hm => h (by simp [hm])
    simp only [upsertById, if_neg h₀, List.cons_append]
    rw [ih hrest]

theorem foldl_upsert_append :
    ∀ (reqs acc : List QuoteRequest),
      ((acc.map (·.id)) ++ (reqs.map (·.id))).Nodup →
      reqs.foldl upsertById acc = acc ++ reqs := by
  intro reqs
  induction reqs with
  | nil => intro acc h; simp
  | cons r rest ih =>
    intro acc h
    have hmem : r.id ∉ acc.map (·.id) := by
      intro hm
      rw [List.nodup_append] at h
      exact h.2.2 hm (by simp)
    have h2 : ((acc ++ [r]).map (·.id) ++ rest.map (·.id)).Nodup := by
      simpa [List.append_assoc] using h
    simp only [List.foldl_cons]
    rw [upsertById_not_mem r acc hmem, ih (acc ++ [r]) h2]
    simp

theorem dedupeById_eq_self (reqs : List QuoteRequest)
    (h : (reqs.map (·.id)).Nodup) : dedupeById reqs = reqs := by
  unfold dedupeById
  have := foldl_upsert_append reqs [] (by simpa using h)
  simpa using this

theorem reg_not_mem (id : Nat) :
    ∀ (reqs : List QuoteRequest) (d : List (Nat × Option Outcome)),
      id ∉ reqs.map (·.id) →
      handleOf (reqs.foldl (fun d r => registerHandle d r.id) d) id =
        handleOf d id := by
  intro reqs
  induction reqs with
  | nil => intro d h; rfl
  | cons r rest ih =>
    intro d h
    have hr : r.id ≠ id := by
      intro he
      exact h (by simp [he])
    have hrest : id ∉ rest.map (·.id) := fun hm => h (by simp [hm])
    simp only [List.foldl_cons]
    rw [ih _ hrest]
    exact handleOf_cons_ne _ _ _ _ hr

theorem reg_mem (id : Nat) :
    ∀ (reqs : List QuoteRequest) (d : List (Nat × Option Outcome)),
      id ∈ reqs.map (·.id) →
      handleOf (reqs.foldl (fun d r => registerHandle d r.id) d) id =
        some none := by
  intro reqs
  induction reqs with
  | nil => intro d h; simp at h
  | cons r rest ih =>
    intro d h
    by_cases hrest : id ∈ rest.map (·.id)
    · simp only [List.foldl_cons]
      exact ih _ hrest
    · have h' : id = r.id ∨ ∃ a ∈ rest, a.id = id := by simpa using h
      have hr : r.id = id := by
        rcases h' with h' | ⟨a, ha, hid⟩
        · exact h'.symm
        · exact absurd (hid ▸ List.mem_map_of_mem (·.id) ha) hrest
      simp only [List.foldl_cons]
      rw [reg_not_mem id rest _ hrest]
      subst hr
      exact handleOf_cons_self _ _ _

theorem cacheGet_set_self (cache : List (CacheKey × Quote × Nat))
    (key : CacheKey) (q : Quote) (now e : Nat) (h : now < e) :
    cacheGet (cacheSet cache key q e) now key = some q := by
  simp [cacheGet, cacheSet, List.find?_cons_of_pos, h]

theorem processRequest_miss_single (cfg : CtrlConfig) (req : QuoteRequest)
    (c : Nat) (addrs : List String) (tIn' tOut' : Token) (q : Quote)
    (hgrp : groupTokensByChain cfg (tokensToUpdate req) = [(c, addrs)])
    (hpools : (getAssociatedPools cfg addrs c).isEmpty = false)
    (hmIn : lookupStr cfg.tokenMetadata req.tokenIn.address = some tIn')
    (hmOut : lookupStr cfg.tokenMetadata req.tokenOut.address = some tOut')
    (hq : calculateBestPrice tIn' tOut' req.amount
      (cfg.fetchPoolData ((getAssociatedPools cfg addrs c).map (·.address)) c) =
      some q)
    (st : CtrlState)
    (hmiss : cacheGet st.cache cfg.now (requestKey req) = none) :
    (processRequest cfg st req).1.cache =
      cacheSet st.cache (requestKey req) q (cfg.now + CACHE_TTL) ∧
    (processRequest cfg st req).1.dispatcher =
      dispatch st.dispatcher req.id (.quote q) ∧
    (processRequest cfg st req).2 =
      [.fetch ((getAssociatedPools cfg addrs c).map (·.address)) c,
        .compute (requestKey req)] := by
  unfold processRequest
  rw [hmiss, hgrp]
  simp only [processGroups, hpools, Bool.false_eq_true, if_false, hmIn, hmOut, hq]
  exact ⟨trivial, trivial, trivial⟩

theorem processAll_samekey (cfg : CtrlConfig) (tIn tOut : Token)
    (amount : Nat) (q : Quote) :
    ∀ (reqs : List QuoteRequest) (st : CtrlState),
      (∀ r ∈ reqs, r.tokenIn = tIn ∧ r.tokenOut = tOut ∧ r.amount = amount) →
      (reqs.map (·.id)).Nodup →
      (∀ r ∈ reqs, handleOf st.dispatcher r.id = some none) →
      cacheGet st.cache cfg.now (tIn.address, tOut.address, amount) = some q →
      (∀ r ∈ reqs, handleOf (processAll cfg reqs st).1.dispatcher r.id =
        some (some (.quote q))) ∧
      (processAll cfg reqs st).2 = [] := by
  intro reqs
  induction reqs with
  | nil =>
    intro st _ _ _ _
    exact ⟨by simp, by simp [processAll]⟩
  | cons r rest ih =>
    intro st hfields hnodup hreg hcache
    obtain ⟨h1, h2, h3⟩ := hfields r (List.mem_cons_self _ _)
    have hkey : requestKey r = (tIn.address, tOut.address, amount) := by
      simp [requestKey, h1, h2, h3]
    have hone : processRequest cfg st r =
        ({ st with dispatcher := dispatch st.dispatcher r.id (.quote q) }, []) := by
      unfold processRequest
      rw [hkey, hcache]
    have hnodup' : r.id ∉ rest.map (·.id) ∧ (rest.map (·.id)).Nodup := by
      have := hnodup
      simp only [List.map_cons, List.nodup_cons] at this
      exact this
    have hrest := ih ({ st with dispatcher := dispatch st.dispatcher r.id (.quote q) })
      (fun r' hr' => hfields r' (List.mem_cons_of_mem _ hr'))
      hnodup'.2
      (fun r' hr' => by
        have hne : r'.id ≠ r.id := by
          intro he
          exact hnodup'.1 (he ▸ List.mem_map_of_mem (·.id) hr')
        show handleOf (dispatch st.dispatcher r.id (.quote q)) r'.id = some none
        rw [dispatch_ne _ _ _ _ hne]
        exact hreg r' (List.mem_cons_of_mem _ hr'))
      hcache
    constructor
    · intro r' hr'
      simp only [processAll, hone]
      rcases List.mem_cons.mp hr' with h' | h'
      · subst h'
        exact processAll_preserves cfg r'.id (.quote q) rest _
          (dispatch_resolve _ _ _ (hreg r' (List.mem_cons_self _ _)))
      · exact hrest.1 r' h'
    · simp only [processAll, hone]
      simpa using hrest.2

/-- C6 (amended): within one flush, requests with the same key whose two
tokens' metadata forms a single chain group, and whose price calculation
succeeds, are computed exactly once: the first such request fetches and
computes the quote and populates the cache, every later identical request is
served the same quote from the cache, and every matching handle resolves to
that one quote.  The single-chain-group restriction is forced: when the two
tokens' metadata is on different chains, the per-chain loop computes twice
for the same key and identical requests can resolve to different quotes
(see the counterexample). -/
theorem claim6_identical_requests (cfg : CtrlConfig) (st : CtrlState)
    (reqs : List QuoteRequest) (tIn tOut : Token) (amount : Nat) (c : Nat)
    (addrs : List String) (tIn' tOut' : Token) (q : Quote)
    (hne : reqs ≠ [])
    (hfields : ∀ r ∈ reqs, r.tokenIn = tIn ∧ r.tokenOut = tOut ∧
      r.amount = amount)
    (hnodup : (reqs.map (·.id)).Nodup)
    (hgrp : groupTokensByChain cfg (if tIn.address = tOut.address
      then [tIn.address] else [tIn.address, tOut.address]) = [(c, addrs)])
    (hpools : (getAssociatedPools cfg addrs c).isEmpty = false)
    (hmIn : lookupStr cfg.tokenMetadata tIn.address = some tIn')
    (hmOut : lookupStr cfg.tokenMetadata tOut.address = some tOut')
    (hq : calculateBestPrice tIn' tOut' amount
      (cfg.fetchPoolData ((getAssociatedPools cfg addrs c).map (·.address)) c) =
      some q)
    (hmiss : cacheGet st.cache cfg.now (tIn.address, tOut.address, amount) =
      none) :
    (∀ r ∈ reqs, handleOf (getQuotes cfg st reqs).1.dispatcher r.id =
      some (some (.quote q))) ∧
    ((getQuotes cfg st reqs).2.filter
      (fun e => e == PipeEv.compute (tIn.address, tOut.address, amount))).length
      = 1 := by
  unfold getQuotes
  rw [dedupeById_eq_self reqs hnodup]
  have hregall : ∀ r' ∈ reqs,
      handleOf (reqs.foldl (fun d r => registerHandle d r.id)
        st.dispatcher) r'.id = some none :=
    fun r' hr' => reg_mem r'.id reqs st.dispatcher
      (List.mem_map_of_mem (·.id) hr')
  obtain ⟨r₁, rest, rfl⟩ : ∃ r₁ rest, reqs = r₁ :: rest := by
    cases reqs with
    | nil => exact absurd rfl hne
    | cons a l => exact ⟨a, l, rfl⟩
  obtain ⟨h1, h2, h3⟩ := hfields r₁ (List.mem_cons_self _ _)
  have hkey₁ : requestKey r₁ = (tIn.address, tOut.address, amount) := by
    simp [requestKey, h1, h2, h3]
  have hgrp₁ : groupTokensByChain cfg (tokensToUpdate r₁) = [(c, addrs)] := by
    have ht : tokensToUpdate r₁ = (if tIn.address = tOut.address
        then [tIn.address] else [tIn.address, tOut.address]) := by
      simp [tokensToUpdate, h1, h2]
    rw [ht]
    exact hgrp
  have hmIn₁ : lookupStr cfg.tokenMetadata r₁.tokenIn.address = some tIn' := by
    rw [h1]; exact hmIn
  have hmOut₁ : lookupStr cfg.tokenMetadata r₁.tokenOut.address = some tOut' := by
    rw [h2]; exact hmOut
  have hq₁ : calculateBestPrice tIn' tOut' r₁.amount
      (cfg.fetchPoolData ((getAssociatedPools cfg addrs c).map (·.address)) c) =
      some q := by
    rw [h3]; exact hq
  have hnodup' : r₁.id ∉ rest.map (·.id) ∧ (rest.map (·.id)).Nodup := by
    have := hnodup
    simp only [List.map_cons, List.nodup_cons] at this
    exact this
  have hmain : ∀ st₀ : CtrlState, st₀.cache = st.cache →
      (∀ r' ∈ r₁ :: rest, handleOf st₀.dispatcher r'.id = some none) →
      (∀ r ∈ r₁ :: rest,
        handleOf (processAll cfg (r₁ :: rest) st₀).1.dispatcher r.id =
          some (some (.quote q))) ∧
      ((processAll cfg (r₁ :: rest) st₀).2.filter
        (fun e => e == PipeEv.compute (tIn.address, tOut.address, amount))).length
        = 1 := by
    intro st₀ hc₀ hreg₀
    have hmiss₀ : cacheGet st₀.cache cfg.now (requestKey r₁) = none := by
      rw [hc₀, hkey₁]; exact hmiss
    obtain ⟨hcache₁, hdisp₁, hev₁⟩ := processRequest_miss_single cfg r₁ c addrs
      tIn' tOut' q hgrp₁ hpools hmIn₁ hmOut₁ hq₁ st₀ hmiss₀
    have hcache₁' : cacheGet (processRequest cfg st₀ r₁).1.cache cfg.now
        (tIn.address, tOut.address, amount) = some q := by
      rw [hcache₁, hkey₁]
      exact cacheGet_set_self _ _ _ _ _ (by simp [CACHE_TTL])
    have hloop := processAll_samekey cfg tIn tOut amount q rest
      (processRequest cfg st₀ r₁).1
      (fun r' hr' => hfields r' (List.mem_cons_of_mem _ hr'))
      hnodup'.2
      (fun r' hr' => by
        have hne' : r'.id ≠ r₁.id := by
          intro he
          exact hnodup'.1 (he ▸ List.mem_map_of_mem (·.id) hr')
        rw [hdisp₁, dispatch_ne _ _ _ _ hne']
        exact hreg₀ r' (List.mem_cons_of_mem _ hr'))
      hcache₁'
    constructor
    · intro r' hr'
      simp only [processAll]
      rcases List.mem_cons.mp hr' with h' | h'
      · subst h'
        refine processAll_preserves cfg r'.id (.quote q) rest _ ?_
        rw [hdisp₁]
        exact dispatch_resolve _ _ _ (hreg₀ r' (List.mem_cons_self _ _))
      · exact hloop.1 r' h'
    · simp only [processAll]
      rw [hev₁, hloop.2, hkey₁]
      have hfc : ((PipeEv.fetch ((getAssociatedPools cfg addrs c).map
          (·.address)) c) ==
          PipeEv.compute (tIn.address, tOut.address, amount)) = false := by
        simp
      simp [List.filter_cons, hfc]
  exact hmain _ rfl hregall

/-- Concrete data refuting C6 as stated: the request's two tokens live on
different chains (1 and 137), each with an associated pool. -/
def tokAC6 : Token := ⟨"A", "A", "A", 18, 1⟩

def tokBC6 : Token := ⟨"B", "B", "B", 18, 137⟩

def cfgC6 : CtrlConfig :=
  ⟨[("A", tokAC6), ("B", tokBC6)], [("A_B", "poolE")], [("A_B", "poolP")],
    fun _ c => if c = 1 then [⟨"poolE", tokAC6, tokBC6, 0, 0, 0, 111, 0⟩]
      else [⟨"poolP", tokAC6, tokBC6, 0, 0, 0, 222, 0⟩], 50000⟩

def stC6 : CtrlState := ⟨[], [], []⟩

def reqC61 : QuoteRequest := ⟨1, tokAC6, tokBC6, 1000⟩

def reqC62 : QuoteRequest := ⟨2, tokAC6, tokBC6, 1000⟩

/-- C6 counterexample: two identical concurrent requests (same key,
distinct ids) in one flush.  The first request's per-chain loop computes a
quote twice — once per chain group — resolving its handle with the chain-1
quote while the second computation overwrites the cache; the second request
is then served the chain-137 quote from the cache.  The key is computed
twice, and the two identical requests resolve to different quotes. -/
theorem claim6_cx :
    requestKey reqC61 = requestKey reqC62 ∧ reqC61.id ≠ reqC62.id ∧
    handleOf (getQuotes cfgC6 stC6 [reqC61, reqC62]).1.dispatcher 1 =
      some (some (.quote ⟨111, "poolE"⟩)) ∧
    handleOf (getQuotes cfgC6 stC6 [reqC61, reqC62]).1.dispatcher 2 =
      some (some (.quote ⟨222, "poolP"⟩)) ∧
    (⟨111, "poolE"⟩ : Quote) ≠ ⟨222, "poolP"⟩ ∧
    ((getQuotes cfgC6 stC6 [reqC61, reqC62]).2.filter
      (fun e => e == PipeEv.compute (requestKey reqC61))).length = 2 :=
  ⟨rfl, by decide, rfl, rfl, by decide, rfl⟩

/-- Concrete single-chain data for the C6 witness. -/
def tokAW6 : Token := ⟨"A", "A", "A", 18, 1⟩

def tokBW6 : Token := ⟨"B", "B", "B", 18, 1⟩

def cfgW6 : CtrlConfig :=
  ⟨[("A", tokAW6), ("B", tokBW6)], [("A_B", "poolE")], [],
    fun _ _ => [⟨"poolE", tokAW6, tokBW6, 0, 0, 0, 111, 0⟩], 50000⟩

def stW6 : CtrlState := ⟨[], [], []⟩

def reqW61 : QuoteRequest := ⟨1, tokAW6, tokBW6, 1000⟩

def reqW62 : QuoteRequest := ⟨2, tokAW6, tokBW6, 1000⟩

/-- Witness for `claim6_identical_requests` at a concrete input. -/
theorem claim6_witness :
    (∀ r ∈ [reqW61, reqW62],
      handleOf (getQuotes cfgW6 stW6 [reqW61, reqW62]).1.dispatcher r.id =
        some (some (.quote ⟨111, "poolE"⟩))) ∧
    ((getQuotes cfgW6 stW6 [reqW61, reqW62]).2.filter
      (fun e => e == PipeEv.compute ("A", "B", 1000))).length = 1 :=
  claim6_identical_requests cfgW6 stW6 [reqW61, reqW62] tokAW6 tokBW6 1000 1
    ["A", "B"] tokAW6 tokBW6 ⟨111, "poolE"⟩ (by decide) (by decide) (by decide)
    rfl rfl rfl rfl rfl rfl

end DexAgg
